import Mathlib

/-!
Verification of the memory-hierarchy simulator (TLBs, page-walk caches,
four-level page table, write-back cache hierarchy, linear and tiny-pointer
physical-frame allocators) against its natural-language specification.

The definitions below are a shallow embedding of the C++ sources.  All
machine integers (`UINT64`, `ADDRINT`, `size_t`) are modelled as `Nat`; an
explicit `% 2 ^ 64` (`u64`) is inserted exactly where a C++ expression can
exceed 64 bits, and bit-field writes are truncated to the field width.
Fatal paths (failed `assert`, `exit(1)`) are modelled with `Option`:
`none` means the program dies at that point.  Reporting-only data (cache
name strings, printing) is not modelled.
-/

set_option maxRecDepth 16384

namespace MemSim

/-- `kMemTracePageSize` from common.h: 4 KB pages. -/
def kMemTracePageSize : Nat := 4096

/-- `kPageShift` from common.h. -/
def kPageShift : Nat := 12

/-- `kPageMask` from common.h. -/
def kPageMask : Nat := kMemTracePageSize - 1

/-- Truncation to 64 bits, the implicit behaviour of every `UINT64` expression. -/
def u64 (n : Nat) : Nat := n % (2 ^ 64)

/-- `floor (log2 n)` by structural recursion on a fuel of halvings (32
suffice for any 32-bit operand); agrees with `Nat.log2` below the fuel. -/
def log2Fuel : Nat → Nat → Nat
  | 0, _ => 0
  | fuel + 1, n => if 2 ≤ n then log2Fuel fuel (n / 2) + 1 else 0

/-- `StaticLog2` from common.h: `(n == 0) ? 0 : (31 - __builtin_clz(n))`.
`__builtin_clz` takes a 32-bit operand, so the argument is implicitly
truncated to 32 bits; for `0 < n % 2^32` the C expression equals
`floor (log2 (n % 2^32))`.  (For `n % 2^32 = 0` with `n ≠ 0` the C call is
undefined behaviour; no claim below exercises that corner.) -/
def StaticLog2 (n : Nat) : Nat := if n = 0 then 0 else log2Fuel 32 (n % (2 ^ 32))

/-! ## SetAssociativeCache (cache.h, current variant)

The C++ class is a template `SetAssociativeCache<TagType, ValueType>`; every
instantiation in the program uses `<UINT64, UINT64>`, so the embedding is
monomorphic over `Nat`.  The per-subtype virtual `GetSetIndex` is passed as
the explicit `setIndex` argument of each operation, and the virtual
`HandleEviction` hook is returned to the caller as the evicted dirty line
(the caller performs the subtype's eviction effect). -/

/-- `CacheEntry` from cache.h: `(tag, value, valid, dirty, lruCounter)`. -/
structure CacheEntry where
  tag : Nat
  value : Nat
  valid : Bool
  dirty : Bool
  lruCounter : Nat
deriving Repr, DecidableEq

/-- The default-constructed `CacheEntry()` (all fields zero / false). -/
def CacheEntry.init : CacheEntry :=
  { tag := 0, value := 0, valid := false, dirty := false, lruCounter := 0 }

instance : Inhabited CacheEntry := ⟨CacheEntry.init⟩

/-- The data part of `SetAssociativeCache` (name string omitted). -/
structure SetAssociativeCache where
  numSets : Nat
  numWays : Nat
  accesses : Nat
  hits : Nat
  globalLruCounter : Nat
  sets : List (List CacheEntry)
deriving Repr, DecidableEq

namespace SetAssociativeCache

/-- Read `sets_[si][wi]`; in C++ both indices are always in range, the
`getD` defaults only totalise the function. -/
def getEntry (c : SetAssociativeCache) (si wi : Nat) : CacheEntry :=
  (c.sets.getD si []).getD wi CacheEntry.init

/-- Write `sets_[si][wi] := e` (out-of-range writes are no-ops, unreachable
from C++ states). -/
def setEntry (c : SetAssociativeCache) (si wi : Nat) (e : CacheEntry) :
    SetAssociativeCache :=
  { c with sets := c.sets.set si ((c.sets.getD si []).set wi e) }

/-- The constructor `SetAssociativeCache(name, numSets, ways)`: all entries
invalid (`CacheEntry()`), counters zero. -/
def mk0 (numSets numWays : Nat) : SetAssociativeCache :=
  { numSets := numSets, numWays := numWays, accesses := 0, hits := 0,
    globalLruCounter := 0,
    sets := List.replicate numSets (List.replicate numWays CacheEntry.init) }

/-- The scan loop shared by `Lookup` and `Insert`: the first way `w` with
`sets_[si][w].valid && sets_[si][w].tag == tag`, if any.  The C++ loop
runs `way` from 0 to `numWays_ - 1` over the set's vector (which holds
exactly `numWays_` entries); the recursion walks that vector directly. -/
def findWayAux (tag : Nat) : List CacheEntry → Nat → Option Nat
  | [], _ => none
  | e :: rest, way =>
      if e.valid && e.tag == tag then some way
      else findWayAux tag rest (way + 1)

def findWay (c : SetAssociativeCache) (si tag : Nat) : Option Nat :=
  findWayAux tag (c.sets.getD si []) 0

/-- `FindLruWay` from cache.h: first invalid way, else the way with the
strictly smallest `lruCounter` (initial candidate: way 0). -/
def findLruAux : List CacheEntry → Nat → Nat → Nat → Nat
  | [], _, lruWay, _ => lruWay
  | e :: rest, way, lruWay, minC =>
      if !e.valid then way
      else if e.lruCounter < minC then findLruAux rest (way + 1) way e.lruCounter
      else findLruAux rest (way + 1) lruWay minC

def findLruWay (c : SetAssociativeCache) (si : Nat) : Nat :=
  findLruAux (c.sets.getD si []) 0 0 (c.getEntry si 0).lruCounter

/-- `UpdateLru`: `sets_[si][wi].lruCounter = ++globalLruCounter_`. -/
def updateLru (c : SetAssociativeCache) (si wi : Nat) : SetAssociativeCache :=
  let g := c.globalLruCounter + 1
  let c := { c with globalLruCounter := g }
  c.setEntry si wi { c.getEntry si wi with lruCounter := g }

/-- `Lookup(tag, value)`: `accesses_++`; on a matching valid way, `hits_++`,
refresh LRU and return the stored value. -/
def Lookup (c : SetAssociativeCache) (si tag : Nat) :
    Option Nat × SetAssociativeCache :=
  let c := { c with accesses := c.accesses + 1 }
  match c.findWay si tag with
  | some w =>
      let v := (c.getEntry si w).value
      (some v, { c.updateLru si w with hits := c.hits + 1 })
  | none => (none, c)

/-- `Insert(tag, value, isWrite)`.  Returns the new cache together with the
evicted dirty line `(tag, value)` when the victim was valid and dirty; the
caller performs the subtype's `HandleEviction` effect on it (called by the
C++ code after the replacement is installed). -/
def Insert (c : SetAssociativeCache) (si tag value : Nat) (isWrite : Bool) :
    SetAssociativeCache × Option (Nat × Nat) :=
  match c.findWay si tag with
  | some w =>
      let e := c.getEntry si w
      let c := c.setEntry si w { e with value := value, dirty := e.dirty || isWrite }
      (c.updateLru si w, none)
  | none =>
      let victim := c.findLruWay si
      let e := c.getEntry si victim
      let evicted := if e.valid && e.dirty then some (e.tag, e.value) else none
      let c := c.setEntry si victim
        { tag := tag, value := value, valid := true, dirty := isWrite,
          lruCounter := 0 }
      (c.updateLru si victim, evicted)

/-- Structural well-formedness of the C++ `std::vector` representation:
`numSets` rows of exactly `numWays` entries each, with at least one way.
Every cache built by the constructors satisfies it. -/
def wfb (c : SetAssociativeCache) : Bool :=
  c.sets.length == c.numSets &&
  c.sets.all (fun row => row.length == c.numWays) &&
  0 < c.numWays

end SetAssociativeCache

/-! ## TLB

`TLB : SetAssociativeCache<UINT64, UINT64>` with set index `vpn % numSets_`
and a no-op `HandleEviction` (evicted lines are dropped). -/

structure TLB where
  sac : SetAssociativeCache
deriving Repr, DecidableEq

namespace TLB

/-- Constructor: `Sets = Total entries / Ways`. -/
def mk0 (numEntries associativity : Nat) : TLB :=
  ⟨SetAssociativeCache.mk0 (numEntries / associativity) associativity⟩

def GetSetIndex (t : TLB) (vpn : Nat) : Nat := vpn % t.sac.numSets

def Lookup (t : TLB) (vpn : Nat) : Option Nat × TLB :=
  let (r, c) := t.sac.Lookup (t.GetSetIndex vpn) vpn
  (r, ⟨c⟩)

def Insert (t : TLB) (vpn pfn : Nat) : TLB :=
  ⟨(t.sac.Insert (t.GetSetIndex vpn) vpn pfn false).1⟩

end TLB

/-! ## PageWalkCache (pwc.h)

Tag = the virtual-address bit slice `[lowBit .. highBit]`, set index =
`tag % numSets`, no eviction effect.  (The TOC mode of the current
`PageWalkCache` class is not among the repository's source files — only its
callers are; all claims below are settled on non-TOC configurations, for
which pwc.h gives the behaviour.) -/

structure PageWalkCache where
  sac : SetAssociativeCache
  indexBitsLow : Nat
  indexBitsHigh : Nat
deriving Repr, DecidableEq

namespace PageWalkCache

def mk0 (numEntries associativity lowBit highBit : Nat) : PageWalkCache :=
  ⟨SetAssociativeCache.mk0 (numEntries / associativity) associativity,
   lowBit, highBit⟩

/-- `getTag`: `(vaddr & mask) >> lowBit` with
`mask = ((1 << (high - low + 1)) - 1) << low`. -/
def getTag (p : PageWalkCache) (vaddr : Nat) : Nat :=
  let mask := ((1 <<< (p.indexBitsHigh - p.indexBitsLow + 1)) - 1) <<< p.indexBitsLow
  (vaddr &&& mask) >>> p.indexBitsLow

def GetSetIndex (p : PageWalkCache) (tag : Nat) : Nat := tag % p.sac.numSets

def Lookup (p : PageWalkCache) (vaddr : Nat) : Option Nat × PageWalkCache :=
  let tag := p.getTag vaddr
  let (r, c) := p.sac.Lookup (p.GetSetIndex tag) tag
  (r, { p with sac := c })

def Insert (p : PageWalkCache) (vaddr nextLevelPfn : Nat) : PageWalkCache :=
  let tag := p.getTag vaddr
  { p with sac := (p.sac.Insert (p.GetSetIndex tag) tag nextLevelPfn false).1 }

end PageWalkCache

/-! ## DataCache (data_cache.h, current variant)

Set index = `tag & (numSets - 1)` where the tag is the line-aligned
address `paddr >> offsetBits`, computed by the `CacheHierarchy` caller.
`HandleEviction` propagates a dirty eviction to the next level; the links
`nextLevel_` / `memAccessCounter_` fixed at construction are realised by the
`CacheHierarchy` functions below, which thread the evicted line returned by
`SetAssociativeCache.Insert` into the next level. -/

structure DataCache where
  sac : SetAssociativeCache
  lineSize : Nat
  offsetBits : Nat
  readAccesses : Nat
  readHits : Nat
  writeAccesses : Nat
  writeHits : Nat
  writebacks : Nat
  coldMisses : Nat
  capacityMisses : Nat
  conflictMisses : Nat
deriving Repr, DecidableEq

namespace DataCache

/-- Constructor: `numSets = totalSize / (associativity * lineSize)`,
`offsetBits = StaticLog2 lineSize`. -/
def mk0 (totalSize associativity lineSize : Nat) : DataCache :=
  { sac := SetAssociativeCache.mk0 (totalSize / (associativity * lineSize)) associativity,
    lineSize := lineSize, offsetBits := StaticLog2 lineSize,
    readAccesses := 0, readHits := 0, writeAccesses := 0, writeHits := 0,
    writebacks := 0, coldMisses := 0, capacityMisses := 0, conflictMisses := 0 }

def GetSetIndex (d : DataCache) (tag : Nat) : Nat := tag &&& (d.sac.numSets - 1)

/-- `DataCache::Lookup(tag, value, isWrite)`: base `Lookup` plus read/write
split and cold/capacity/conflict classification on a miss.  Returns
`some v` on a hit (the C++ out-parameter `value`) and `none` on a miss
(the caller's `value` is left unchanged). -/
def Lookup (d : DataCache) (tag : Nat) (isWrite : Bool) :
    Option Nat × DataCache :=
  let (r, c) := d.sac.Lookup (d.GetSetIndex tag) tag
  let d := { d with sac := c }
  let hit := r.isSome
  let d :=
    if isWrite then
      { d with writeAccesses := d.writeAccesses + 1,
               writeHits := d.writeHits + (if hit then 1 else 0) }
    else
      { d with readAccesses := d.readAccesses + 1,
               readHits := d.readHits + (if hit then 1 else 0) }
  let d :=
    if hit then d
    else if d.sac.globalLruCounter < d.sac.numSets * d.sac.numWays then
      { d with coldMisses := d.coldMisses + 1 }
    else if d.sac.findLruWay (d.GetSetIndex tag) ≠ 0 then
      { d with capacityMisses := d.capacityMisses + 1 }
    else
      { d with conflictMisses := d.conflictMisses + 1 }
  (r, d)

/-- Raw `Insert` on the underlying store (the inherited
`SetAssociativeCache::Insert`); the evicted dirty line is returned for the
hierarchy to run `HandleEviction` on. -/
def Insert (d : DataCache) (tag value : Nat) (isWrite : Bool) :
    DataCache × Option (Nat × Nat) :=
  let (c, ev) := d.sac.Insert (d.GetSetIndex tag) tag value isWrite
  ({ d with sac := c }, ev)

/-- True when some valid way of `tag`'s set holds `tag`. -/
def linePresent (d : DataCache) (tag : Nat) : Bool :=
  (d.sac.findWay (d.GetSetIndex tag) tag).isSome

/-- True when `tag` is present and its (first matching) entry is dirty. -/
def lineDirty (d : DataCache) (tag : Nat) : Bool :=
  match d.sac.findWay (d.GetSetIndex tag) tag with
  | some w => (d.sac.getEntry (d.GetSetIndex tag) w).dirty
  | none => false

end DataCache

/-! ## CacheHierarchy (data_cache.h, current variant) -/

structure CacheHierarchy where
  l1Cache : DataCache
  l2Cache : DataCache
  l3Cache : DataCache
  memAccessCount : Nat
deriving Repr, DecidableEq

namespace CacheHierarchy

def mk0 (l1Size l1Ways l1Line l2Size l2Ways l2Line l3Size l3Ways l3Line : Nat) :
    CacheHierarchy :=
  { l1Cache := DataCache.mk0 l1Size l1Ways l1Line,
    l2Cache := DataCache.mk0 l2Size l2Ways l2Line,
    l3Cache := DataCache.mk0 l3Size l3Ways l3Line,
    memAccessCount := 0 }

/-- `Insert` on L3 plus its `HandleEviction`: a dirty eviction counts a
write-back and (no next level, `memAccessCounter_` set) a main-memory
access. -/
def l3Insert (h : CacheHierarchy) (tag value : Nat) (isWrite : Bool) :
    CacheHierarchy :=
  let (c, ev) := h.l3Cache.Insert tag value isWrite
  match ev with
  | none => { h with l3Cache := c }
  | some _ =>
      { h with l3Cache := { c with writebacks := c.writebacks + 1 },
               memAccessCount := h.memAccessCount + 1 }

/-- `Insert` on L2 plus its `HandleEviction`: a dirty eviction counts a
write-back and is written to L3 with `Insert(tag, value, true)`.  (The C++
hook computes a `nextLevelTag` but passes the unshifted `tag`; with the
equal line sizes of all supported configurations the two coincide.) -/
def l2Insert (h : CacheHierarchy) (tag value : Nat) (isWrite : Bool) :
    CacheHierarchy :=
  let (c, ev) := h.l2Cache.Insert tag value isWrite
  match ev with
  | none => { h with l2Cache := c }
  | some (etag, evalue) =>
      l3Insert { h with l2Cache := { c with writebacks := c.writebacks + 1 } }
        etag evalue true

/-- `Insert` on L1 plus its `HandleEviction` (write the dirty victim to L2). -/
def l1Insert (h : CacheHierarchy) (tag value : Nat) (isWrite : Bool) :
    CacheHierarchy :=
  let (c, ev) := h.l1Cache.Insert tag value isWrite
  match ev with
  | none => { h with l1Cache := c }
  | some (etag, evalue) =>
      l2Insert { h with l1Cache := { c with writebacks := c.writebacks + 1 } }
        etag evalue true

end CacheHierarchy

/-! ## TranslationStats (common.h, current variant) -/

structure TranslationStats where
  l1TlbHits : Nat
  l2TlbHits : Nat
  pmdCacheHits : Nat
  pudCacheHits : Nat
  pgdCacheHits : Nat
  fullWalks : Nat
  pageWalkMemAccess : Nat
  pteDataCacheHits : Nat
  pteDataCacheMisses : Nat
  l2DataCacheAccess : Nat
  l2DataCacheHits : Nat
  l3DataCacheAccess : Nat
  l3DataCacheHits : Nat
deriving Repr, DecidableEq

namespace TranslationStats

/-- `TranslationStats()` zero-initialises every counter. -/
def init : TranslationStats :=
  { l1TlbHits := 0, l2TlbHits := 0, pmdCacheHits := 0, pudCacheHits := 0,
    pgdCacheHits := 0, fullWalks := 0, pageWalkMemAccess := 0,
    pteDataCacheHits := 0, pteDataCacheMisses := 0,
    l2DataCacheAccess := 0, l2DataCacheHits := 0,
    l3DataCacheAccess := 0, l3DataCacheHits := 0 }

/-- `GetTotalTranslation`: the sum of the six translation-path counters. -/
def GetTotalTranslation (s : TranslationStats) : Nat :=
  s.l1TlbHits + s.l2TlbHits + s.pmdCacheHits + s.pudCacheHits +
  s.pgdCacheHits + s.fullWalks

/-- The six translation-path counters as a list, in declaration order. -/
def pathCounters (s : TranslationStats) : List Nat :=
  [s.l1TlbHits, s.l2TlbHits, s.pmdCacheHits, s.pudCacheHits,
   s.pgdCacheHits, s.fullWalks]

/-- The claimed per-call behaviour: `new`'s six path counters are `old`'s
with exactly one of the six incremented by one. -/
def oneStep (old new : TranslationStats) : Bool :=
  (new.pathCounters == [old.l1TlbHits + 1, old.l2TlbHits, old.pmdCacheHits,
      old.pudCacheHits, old.pgdCacheHits, old.fullWalks]) ||
  (new.pathCounters == [old.l1TlbHits, old.l2TlbHits + 1, old.pmdCacheHits,
      old.pudCacheHits, old.pgdCacheHits, old.fullWalks]) ||
  (new.pathCounters == [old.l1TlbHits, old.l2TlbHits, old.pmdCacheHits + 1,
      old.pudCacheHits, old.pgdCacheHits, old.fullWalks]) ||
  (new.pathCounters == [old.l1TlbHits, old.l2TlbHits, old.pmdCacheHits,
      old.pudCacheHits + 1, old.pgdCacheHits, old.fullWalks]) ||
  (new.pathCounters == [old.l1TlbHits, old.l2TlbHits, old.pmdCacheHits,
      old.pudCacheHits, old.pgdCacheHits + 1, old.fullWalks]) ||
  (new.pathCounters == [old.l1TlbHits, old.l2TlbHits, old.pmdCacheHits,
      old.pudCacheHits, old.pgdCacheHits, old.fullWalks + 1])

end TranslationStats

namespace CacheHierarchy

/-- `TranslateLookup(paddr, value, translationStats)`: the translation-path
cache access, starting at L2.  Returns `(hit, value, hierarchy, stats)`. -/
def TranslateLookup (h : CacheHierarchy) (paddr value : Nat)
    (ts : TranslationStats) : Bool × Nat × CacheHierarchy × TranslationStats :=
  let l2CacheTag := paddr >>> h.l2Cache.offsetBits
  let ts := { ts with l2DataCacheAccess := ts.l2DataCacheAccess + 1 }
  let (r2, l2') := h.l2Cache.Lookup l2CacheTag false
  let h := { h with l2Cache := l2' }
  match r2 with
  | some v =>
      (true, v, h, { ts with l2DataCacheHits := ts.l2DataCacheHits + 1 })
  | none =>
      let l3CacheTag := paddr >>> h.l3Cache.offsetBits
      let ts := { ts with l3DataCacheAccess := ts.l3DataCacheAccess + 1 }
      let (r3, l3') := h.l3Cache.Lookup l3CacheTag false
      let h := { h with l3Cache := l3' }
      match r3 with
      | some v =>
          let ts := { ts with l3DataCacheHits := ts.l3DataCacheHits + 1 }
          (true, v, h.l2Insert l2CacheTag v false, ts)
      | none =>
          let h := { h with memAccessCount := h.memAccessCount + 1 }
          let h := h.l3Insert l3CacheTag value false
          let h := h.l2Insert l2CacheTag value false
          (false, value, h, ts)

/-- `Access(paddr, value, isWrite)`: the conventional L1→L2→L3→memory data
path.  The all-miss branch carries a C++ `assert` on the L3 counters;
model it with `none` on failure (the subtraction is `UINT64` arithmetic,
but `hits ≤ accesses` in every state the program reaches). -/
def Access (h : CacheHierarchy) (paddr value : Nat) (isWrite : Bool) :
    Option (Bool × Nat × CacheHierarchy) :=
  let l1CacheTag := paddr >>> h.l1Cache.offsetBits
  let (r1, l1') := h.l1Cache.Lookup l1CacheTag isWrite
  let h := { h with l1Cache := l1' }
  match r1 with
  | some v =>
      let h := if isWrite then h.l1Insert l1CacheTag v isWrite else h
      some (true, v, h)
  | none =>
      let l2CacheTag := paddr >>> h.l2Cache.offsetBits
      let (r2, l2') := h.l2Cache.Lookup l2CacheTag isWrite
      let h := { h with l2Cache := l2' }
      match r2 with
      | some v =>
          let h := h.l1Insert l1CacheTag v isWrite
          -- source: `l2Cache.Insert(l1CacheTag, value, isWrite)` — the L1 tag
          let h := if isWrite then h.l2Insert l1CacheTag v isWrite else h
          some (true, v, h)
      | none =>
          let l3CacheTag := paddr >>> h.l3Cache.offsetBits
          let (r3, l3') := h.l3Cache.Lookup l3CacheTag isWrite
          let h := { h with l3Cache := l3' }
          match r3 with
          | some v =>
              -- source: `l3Cache.Insert(l1CacheTag, value, isWrite)` — the L1 tag
              let h := if isWrite then h.l3Insert l1CacheTag v isWrite else h
              let h := h.l2Insert l2CacheTag v false
              let h := h.l1Insert l1CacheTag v isWrite
              some (true, v, h)
          | none =>
              let h := { h with memAccessCount := h.memAccessCount + 1 }
              if h.l3Cache.sac.accesses - h.l3Cache.sac.hits + h.l3Cache.writebacks
                  = h.memAccessCount then
                let h := h.l3Insert l3CacheTag value false
                let h := h.l2Insert l2CacheTag value false
                let h := h.l1Insert l1CacheTag value isWrite
                some (false, value, h)
              else none

end CacheHierarchy

/-! ## PhysicalMemory (physical_memory.h, linear allocator) -/

structure PhysicalMemory where
  size : Nat
  allocatedFrames : Nat
  numFrames : Nat
  frameAllocated : Nat → Bool
  nextFrame : Nat

namespace PhysicalMemory

/-- `PhysicalMemory(memorySize)`: bitmap of `size / kMemTracePageSize`
frames, frame 0 reserved, allocation starts at frame 1. -/
def mk0 (memorySize : Nat) : PhysicalMemory :=
  { size := memorySize,
    numFrames := memorySize / kMemTracePageSize,
    frameAllocated := fun i => i == 0,
    allocatedFrames := 1,
    nextFrame := 1 }

/-- `AllocateFrame(key, keyWidth)` (the key is unused by the linear
allocator): `exit(1)` when exhausted, else mark and return `nextFrame_++`. -/
def AllocateFrame (m : PhysicalMemory) (_key : Nat) :
    Option (Nat × PhysicalMemory) :=
  if m.nextFrame ≥ m.numFrames then none
  else
    some (m.nextFrame,
      { m with frameAllocated := fun i => if i = m.nextFrame then true else m.frameAllocated i,
               allocatedFrames := m.allocatedFrames + 1,
               nextFrame := m.nextFrame + 1 })

/-- `AllocateTinyPtrFrame` on the linear allocator: `assert(false)`. -/
def AllocateTinyPtrFrame (_m : PhysicalMemory) (_key : Nat) (_keyWidth : Nat) :
    Option (Nat × Nat × PhysicalMemory) := none

/-- `DecodeFrame` on the linear allocator: `assert(false)`. -/
def DecodeFrame (_m : PhysicalMemory) (_key : Nat) (_tinyPointer : Nat) :
    Option Nat := none

def GetAllocatedFrames (m : PhysicalMemory) : Nat := m.allocatedFrames

end PhysicalMemory

/-! ## MemoryPo2CTable (physical_memory.h / physical_memory.cpp)

The two XXHash64-based hash functions (seeded at construction) are modelled
as abstract functions `hashRaw0`, `hashRaw1`; `hashBin_[i](key)` is
`hashRawI key % binNum_`.  `Bin::bin_` is a 127-slot array holding the
embedded free list. -/

def kBinSize : Nat := 127

def kNullTinyPtr : Nat := 0

def kOverflowTinyPtr : Nat := 255

structure Po2CBin where
  cnt : Nat
  head : Nat
  bin : Nat → Nat

namespace Po2CBin

/-- `Bin::Bin()`: `bin_[i] = i + 2`, `cnt_ = 0`, `head_ = 1`. -/
def init : Po2CBin := { cnt := 0, head := 1, bin := fun i => i + 2 }

def Full (b : Po2CBin) : Bool := b.cnt == kBinSize

def Count (b : Po2CBin) : Nat := b.cnt

/-- `Bin::Insert(_, keyWidth)` from physical_memory.cpp.  Returns the
overflow sentinel 255 when full; a failed `assert` is `none`.

The guarded branch for `keyWidth != 8 && head_ >= 2^(keyWidth-1)` contains
`while (tmp < threadholdIndex) { ... }`; its condition is false on entry
(the guard just established `tmp >= threadholdIndex`), so the loop body —
the free-list traversal the adjacent comment describes, including its
`assert(0)` exhaustion case — never executes.  The embedding therefore
performs zero iterations, then the (self-assigning)
`bin_[prevBinIndex-1] = bin_[tmp-1]` write with `prevBinIndex = tmp = head_`.
(`threadholdIndex` under `keyWidth = 0` is C undefined behaviour, modelled
here with saturating `keyWidth - 1`.) -/
def Insert (b : Po2CBin) (_key : Nat) (keyWidth : Nat) :
    Option (Nat × Po2CBin) :=
  if b.Full then some (kOverflowTinyPtr, b)
  else if keyWidth ≤ 8 then
    let tmp := b.head
    let threadholdIndex := 1 <<< (keyWidth - 1)
    if keyWidth ≠ 8 ∧ tmp ≥ threadholdIndex then
      let prevBinIndex := b.head
      let b := { b with bin := fun i => if i = prevBinIndex - 1 then b.bin (tmp - 1) else b.bin i }
      let b := { b with cnt := b.cnt + 1 }
      if b.head ≤ 128 ∧ b.head ≠ 0 then some (tmp, b) else none
    else
      let b := { b with head := b.bin (b.head - 1) }
      let b := { b with cnt := b.cnt + 1 }
      if b.head ≤ 128 ∧ b.head ≠ 0 then some (tmp, b) else none
  else none

end Po2CBin

structure MemoryPo2CTable where
  binNum : Nat
  hashRaw0 : Nat → Nat
  hashRaw1 : Nat → Nat
  tab : Nat → Po2CBin

namespace MemoryPo2CTable

/-- `MemoryPo2CTable(n)`: `binNum_ = ceil(n / kBinSize)`, fresh bins. -/
def mk0 (n : Nat) (hashRaw0 hashRaw1 : Nat → Nat) : MemoryPo2CTable :=
  { binNum := (n + kBinSize - 1) / kBinSize,
    hashRaw0 := hashRaw0, hashRaw1 := hashRaw1,
    tab := fun _ => Po2CBin.init }

/-- `hashBin_[i](key)` for `i ∈ {0, 1}` (`flag` is the C++ `uint8_t` used as
an index, modelled as `Bool` with `false = 0`). -/
def hashBin (t : MemoryPo2CTable) (flag : Bool) (key : Nat) : Nat :=
  (if flag then t.hashRaw1 key else t.hashRaw0 key) % t.binNum

/-- `Allocate(key, keyWidth)`: insert into the less-full of the two hashed
candidate bins, encode the chosen bin in the top bit of the returned tiny
pointer (`ptr ^= flag * (ptr != 255) * 255`), and return the frame number
`binIndex * kBinSize + ptr - 1`.  The C++ `assert`s are `none`. -/
def Allocate (t : MemoryPo2CTable) (key : Nat) (keyWidth : Nat) :
    Option ((Nat × Nat) × MemoryPo2CTable) :=
  let hashbin0 := t.hashBin false key
  let hashbin1 := t.hashBin true key
  let flag : Bool := (t.tab hashbin0).Count > (t.tab hashbin1).Count
  let chosen := if flag then hashbin1 else hashbin0
  match (t.tab chosen).Insert key keyWidth with
  | none => none
  | some (ptr, bin') =>
      if ptr = 0 then none
      else
        let t := { t with tab := fun i => if i = chosen then bin' else t.tab i }
        let binIndex := t.hashBin flag key
        let frameNum := binIndex * kBinSize + ptr - 1
        let ptr := ptr ^^^ ((if flag then 1 else 0) * (if ptr ≠ kOverflowTinyPtr then 1 else 0) * 255)
        if ptr ≠ kOverflowTinyPtr ∧ ptr ≠ kNullTinyPtr then
          some ((ptr, frameNum), t)
        else none

/-- `Query(key, ptr, valuePtr)`: recover the bin-selector bit and slot,
rehash, return `binIndex * kBinSize + slot - 1`. -/
def Query (t : MemoryPo2CTable) (key : Nat) (ptr : Nat) : Option Nat :=
  if ptr ≠ kOverflowTinyPtr ∧ ptr ≠ kNullTinyPtr then
    let flag : Bool := ptr ≥ 128
    let ptr := ptr ^^^ (if flag then 255 else 0)
    let binIndex := t.hashBin flag key
    some (binIndex * kBinSize + ptr - 1)
  else none

end MemoryPo2CTable

/-! ## Page-table entries (page_table.h, current variant)

Four bit-field layouts; writes to a bit field truncate to its width. -/

structure PageTableEntry8B where
  present : Bool
  writable : Bool
  user : Bool
  pfn : Nat          -- 52-bit field
deriving Repr, DecidableEq

def PageTableEntry8B.init : PageTableEntry8B :=
  { present := false, writable := false, user := false, pfn := 0 }

structure PageTableEntryNarrow where
  present : Bool
  controlBits : Nat
  tinyPointer : Nat
deriving Repr, DecidableEq

def PageTableEntryNarrow.init : PageTableEntryNarrow :=
  { present := false, controlBits := 0, tinyPointer := 0 }

/-- One 4 KB `PageTablePage`.  The C++ type is a union of the four entry
arrays over the same 4096 bytes; since every page-table page is read and
written at the single width fixed for its level, the embedding keeps the
four views as independent index maps (all zero-initialised, as
`PageTablePage()` memsets the page). -/
structure PageTablePage where
  entries8B : Nat → PageTableEntry8B
  entries4B : Nat → PageTableEntryNarrow
  entries2B : Nat → PageTableEntryNarrow
  entries1B : Nat → PageTableEntryNarrow

def PageTablePage.init : PageTablePage :=
  { entries8B := fun _ => PageTableEntry8B.init,
    entries4B := fun _ => PageTableEntryNarrow.init,
    entries2B := fun _ => PageTableEntryNarrow.init,
    entries1B := fun _ => PageTableEntryNarrow.init }

/-! ## PageTable (page_table.h, current variant)

The state carried by the `PageTable` object.  `pageTables_` is an
`unordered_map<UINT64, unique_ptr<PageTablePage>>` whose `operator[]`
default-constructs a zeroed page on first access; a total function with
zeroed default models exactly that.  The concrete simulator
(`OfflineAnalyzer`) instantiates `BasePhysicalMemory` with the linear
`PhysicalMemory`, which is what the state embeds; on it the tiny-pointer
virtual calls taken by the narrow-entry paths fail their `assert(false)`. -/

structure PageTable where
  pageTables : Nat → PageTablePage
  cr3 : Nat
  physMem : PhysicalMemory
  dataCache : CacheHierarchy
  isPteCachable : Bool
  l1Tlb : TLB
  l2Tlb : TLB
  pgdEntryNum : Nat
  pudEntryNum : Nat
  pmdEntryNum : Nat
  pteEntryNum : Nat
  pgdEntryWidth : Nat
  pudEntryWidth : Nat
  pmdEntryWidth : Nat
  pteEntryWidth : Nat
  pteIndexShift : Nat
  pmdShift : Nat
  pudShift : Nat
  pgdShift : Nat
  pgdPwc : PageWalkCache
  pudPwc : PageWalkCache
  pmdPwc : PageWalkCache
  translationStats : TranslationStats
  pgdStatsAccesses : Nat
  pgdStatsAllocations : Nat
  pgdStatsEntries : Nat
  pudStatsAccesses : Nat
  pudStatsAllocations : Nat
  pudStatsEntries : Nat
  pmdStatsAccesses : Nat
  pmdStatsAllocations : Nat
  pmdStatsEntries : Nat
  pteStatsAccesses : Nat
  pteStatsAllocations : Nat
  pteStatsEntries : Nat

namespace PageTable

/-- Write one 8-byte entry of the page keyed `addr` (pfn truncated to its
52-bit field). -/
def setEntry8B (pt : Nat → PageTablePage) (addr idx : Nat)
    (e : PageTableEntry8B) : Nat → PageTablePage :=
  fun a =>
    if a = addr then
      let p := pt addr
      { p with entries8B := fun i => if i = idx then { e with pfn := e.pfn % (2 ^ 52) } else p.entries8B i }
    else pt a

/-- Install a fresh zeroed `PageTablePage` at key `addr`
(`pageTables_[addr] = make_unique<PageTablePage>()`). -/
def setPage (pt : Nat → PageTablePage) (addr : Nat) : Nat → PageTablePage :=
  fun a => if a = addr then PageTablePage.init else pt a

def GetPgdIndex (s : PageTable) (vaddr : Nat) : Nat :=
  (vaddr >>> s.pgdShift) &&& (s.pgdEntryNum - 1)

def GetPudIndex (s : PageTable) (vaddr : Nat) : Nat :=
  (vaddr >>> s.pudShift) &&& (s.pudEntryNum - 1)

def GetPmdIndex (s : PageTable) (vaddr : Nat) : Nat :=
  (vaddr >>> s.pmdShift) &&& (s.pmdEntryNum - 1)

def GetPteIndex (s : PageTable) (vaddr : Nat) : Nat :=
  (vaddr >>> s.pteIndexShift) &&& (s.pteEntryNum - 1)

def GetOffset (_s : PageTable) (vaddr : Nat) : Nat := vaddr &&& kPageMask

/-- The narrow-entry (4/2/1-byte) resolution common to the three
`Allocate*IfNotPresent` templates: allocate a tiny-pointer frame if the
entry is absent, then decode the stored tiny pointer.  On the linear
`PhysicalMemory` both virtual calls are `assert(false)`, so the branch is
fatal whichever way the `present` test goes; the post-allocation state
update is therefore cut to `none` (it is unreachable here). -/
def narrowResolve (s : PageTable) (view : Nat → PageTableEntryNarrow)
    (idx addr : Nat) : Option (Nat × PageTable) :=
  let e := view idx
  if !e.present then
    (s.physMem.AllocateTinyPtrFrame addr 8).bind fun _ => none
  else
    (s.physMem.DecodeFrame addr e.tinyPointer).map fun pfn => (pfn, s)

/-- `GetPudPfn(pgdIndex)`: resolve (allocating if absent) the PGD entry's
child-table pfn.  The PGD level is always 8-byte. -/
def GetPudPfn (s : PageTable) (pgdIndex : Nat) : Option (Nat × PageTable) :=
  let pgdEntry := (s.pageTables s.cr3).entries8B pgdIndex
  let pgdEntryAddr := u64 (s.cr3 + pgdIndex * s.pgdEntryWidth)
  if !pgdEntry.present then
    match s.physMem.AllocateFrame pgdEntryAddr with
    | none => none
    | some (frame, pm) =>
        let e : PageTableEntry8B :=
          { present := true, writable := true, user := pgdEntry.user, pfn := frame % (2 ^ 52) }
        let pudAddr := u64 (e.pfn <<< kPageShift)
        let pt := setEntry8B s.pageTables s.cr3 pgdIndex e
        let pt := setPage pt pudAddr
        some (e.pfn,
          { s with pageTables := pt, physMem := pm,
                   pudStatsAllocations := s.pudStatsAllocations + 1,
                   pgdStatsEntries := s.pgdStatsEntries + 1 })
  else some (pgdEntry.pfn, s)

/-- `AllocatePmdIfNotPresent` + `GetPmdPfn`: dispatch on the PUD entry
width.  Narrow widths go through the tiny-pointer interface of the
physical memory, which on the linear allocator is `assert(false)`. -/
def GetPmdPfn (s : PageTable) (pudIndex pudAddr : Nat) : Option (Nat × PageTable) :=
  match s.pudEntryWidth with
  | 8 =>
      let pudEntry := (s.pageTables pudAddr).entries8B pudIndex
      if !pudEntry.present then
        match s.physMem.AllocateFrame pudAddr with
        | none => none
        | some (frame, pm) =>
            let e : PageTableEntry8B :=
              { present := true, writable := true, user := pudEntry.user, pfn := frame % (2 ^ 52) }
            let pmdAddr := u64 (e.pfn <<< kPageShift)
            let pt := setEntry8B s.pageTables pudAddr pudIndex e
            let pt := setPage pt pmdAddr
            some (e.pfn,
              { s with pageTables := pt, physMem := pm,
                       pmdStatsAllocations := s.pmdStatsAllocations + 1,
                       pudStatsEntries := s.pudStatsEntries + 1 })
      else some (pudEntry.pfn, s)
  | 4 => narrowResolve s (s.pageTables pudAddr).entries4B pudIndex pudAddr
  | 2 => narrowResolve s (s.pageTables pudAddr).entries2B pudIndex pudAddr
  | 1 => narrowResolve s (s.pageTables pudAddr).entries1B pudIndex pudAddr
  | _ => none

/-- `AllocatePteIfNotPresent` + `GetPtePfn`. -/
def GetPtePfn (s : PageTable) (pmdIndex pmdAddr : Nat) : Option (Nat × PageTable) :=
  match s.pmdEntryWidth with
  | 8 =>
      let pmdEntry := (s.pageTables pmdAddr).entries8B pmdIndex
      if !pmdEntry.present then
        match s.physMem.AllocateFrame pmdAddr with
        | none => none
        | some (frame, pm) =>
            let e : PageTableEntry8B :=
              { present := true, writable := true, user := pmdEntry.user, pfn := frame % (2 ^ 52) }
            let pteAddr := u64 (e.pfn <<< kPageShift)
            let pt := setEntry8B s.pageTables pmdAddr pmdIndex e
            let pt := setPage pt pteAddr
            some (e.pfn,
              { s with pageTables := pt, physMem := pm,
                       pteStatsAllocations := s.pteStatsAllocations + 1,
                       pmdStatsEntries := s.pmdStatsEntries + 1 })
      else some (pmdEntry.pfn, s)
  | 4 => narrowResolve s (s.pageTables pmdAddr).entries4B pmdIndex pmdAddr
  | 2 => narrowResolve s (s.pageTables pmdAddr).entries2B pmdIndex pmdAddr
  | 1 => narrowResolve s (s.pageTables pmdAddr).entries1B pmdIndex pmdAddr
  | _ => none

/-- `AllocatePhysFrameIfNotPresent` + `GetPhysFrame`: the PTE level.  In the
8-byte allocation branch the source keys the new (bogus) `pageTables_`
page by `pteEntry.pfn >> kPageShift` — a PFN shifted the wrong way — and
bumps `pteStats_.allocations` for the data page as well. -/
def GetPhysFrame (s : PageTable) (pteIndex pteAddr : Nat) : Option (Nat × PageTable) :=
  match s.pteEntryWidth with
  | 8 =>
      let pteEntry := (s.pageTables pteAddr).entries8B pteIndex
      if !pteEntry.present then
        match s.physMem.AllocateFrame pteAddr with
        | none => none
        | some (frame, pm) =>
            let e : PageTableEntry8B :=
              { present := true, writable := true, user := pteEntry.user, pfn := frame % (2 ^ 52) }
            let physFrameKey := e.pfn >>> kPageShift
            let pt := setEntry8B s.pageTables pteAddr pteIndex e
            let pt := setPage pt physFrameKey
            some (e.pfn,
              { s with pageTables := pt, physMem := pm,
                       pteStatsAllocations := s.pteStatsAllocations + 1,
                       pteStatsEntries := s.pteStatsEntries + 1 })
      else some (pteEntry.pfn, s)
  | 4 => narrowResolve s (s.pageTables pteAddr).entries4B pteIndex pteAddr
  | 2 => narrowResolve s (s.pageTables pteAddr).entries2B pteIndex pteAddr
  | 1 => narrowResolve s (s.pageTables pteAddr).entries1B pteIndex pteAddr
  | _ => none

/-- `CompletePmdCacheHit(vaddr, pteTablePfn)`: resolve the PTE level and
return `(pfn << kPageShift) | offset`. -/
def CompletePmdCacheHit (s : PageTable) (vaddr pteTablePfn : Nat) :
    Option (Nat × PageTable) :=
  let pteAddr := u64 (pteTablePfn <<< kPageShift)
  let pteIndex := s.GetPteIndex vaddr
  let offset := s.GetOffset vaddr
  let entrySize := kMemTracePageSize / s.pteEntryNum
  let pteEntryAddr := u64 (pteAddr + pteIndex * entrySize)
  let (hit, s) :=
    if s.isPteCachable then
      let (hit, _, h, ts) := s.dataCache.TranslateLookup pteEntryAddr 0 s.translationStats
      (hit, { s with dataCache := h, translationStats := ts })
    else (false, s)
  match s.GetPhysFrame pteIndex pteAddr with
  | none => none
  | some (pfn, s) =>
      let s :=
        if hit then
          { s with translationStats :=
              { s.translationStats with pteDataCacheHits := s.translationStats.pteDataCacheHits + 1 } }
        else
          let ts := s.translationStats
          let ts := if s.isPteCachable then { ts with pteDataCacheMisses := ts.pteDataCacheMisses + 1 } else ts
          { s with translationStats := { ts with pageWalkMemAccess := ts.pageWalkMemAccess + 1 },
                   pteStatsAccesses := s.pteStatsAccesses + 1 }
      some (u64 (pfn <<< kPageShift) ||| offset, s)

/-- `CompletePudCacheHit(vaddr, pmdTablePfn)`: resolve the PMD level, fill
the PMD PWC, and continue at the PTE level. -/
def CompletePudCacheHit (s : PageTable) (vaddr pmdTablePfn : Nat) :
    Option (Nat × PageTable) :=
  let pmdAddr := u64 (pmdTablePfn <<< kPageShift)
  let pmdIndex := s.GetPmdIndex vaddr
  let entrySize := kMemTracePageSize / s.pmdEntryNum
  let pmdEntryAddr := u64 (pmdAddr + pmdIndex * entrySize)
  let (hit, s) :=
    if s.isPteCachable then
      let (hit, _, h, ts) := s.dataCache.TranslateLookup pmdEntryAddr 0 s.translationStats
      (hit, { s with dataCache := h, translationStats := ts })
    else (false, s)
  match s.GetPtePfn pmdIndex pmdAddr with
  | none => none
  | some (ptePfn, s) =>
      let s :=
        if hit then
          { s with translationStats :=
              { s.translationStats with pteDataCacheHits := s.translationStats.pteDataCacheHits + 1 } }
        else
          let ts := s.translationStats
          let ts := if s.isPteCachable then { ts with pteDataCacheMisses := ts.pteDataCacheMisses + 1 } else ts
          { s with translationStats := { ts with pageWalkMemAccess := ts.pageWalkMemAccess + 1 },
                   pmdStatsAccesses := s.pmdStatsAccesses + 1 }
      let s := { s with pmdPwc := s.pmdPwc.Insert vaddr ptePfn }
      CompletePmdCacheHit s vaddr ptePfn

/-- `CompletePgdCacheHit(vaddr, pudTablePfn)`: resolve the PUD level, fill
the PUD PWC, and continue at the PMD level. -/
def CompletePgdCacheHit (s : PageTable) (vaddr pudTablePfn : Nat) :
    Option (Nat × PageTable) :=
  let pudAddr := u64 (pudTablePfn <<< kPageShift)
  let pudIndex := s.GetPudIndex vaddr
  let pudEntryAddr := u64 (pudAddr + pudIndex * s.pudEntryWidth)
  let (hit, s) :=
    if s.isPteCachable then
      let (hit, _, h, ts) := s.dataCache.TranslateLookup pudEntryAddr 0 s.translationStats
      (hit, { s with dataCache := h, translationStats := ts })
    else (false, s)
  match s.GetPmdPfn pudIndex pudAddr with
  | none => none
  | some (pmdPfn, s) =>
      let s :=
        if hit then
          { s with translationStats :=
              { s.translationStats with pteDataCacheHits := s.translationStats.pteDataCacheHits + 1 } }
        else
          let ts := s.translationStats
          let ts := if s.isPteCachable then { ts with pteDataCacheMisses := ts.pteDataCacheMisses + 1 } else ts
          { s with translationStats := { ts with pageWalkMemAccess := ts.pageWalkMemAccess + 1 },
                   pudStatsAccesses := s.pudStatsAccesses + 1 }
      let s := { s with pudPwc := s.pudPwc.Insert vaddr pmdPfn }
      CompletePudCacheHit s vaddr pmdPfn

/-- `CompleteFullWalk(vaddr)`: start at the PGD, fill the PGD PWC, then
continue down through `CompletePgdCacheHit`. -/
def CompleteFullWalk (s : PageTable) (vaddr : Nat) : Option (Nat × PageTable) :=
  let pgdIndex := s.GetPgdIndex vaddr
  let pgdEntryAddr := u64 (s.cr3 + pgdIndex * s.pgdEntryWidth)
  let (hit, s) :=
    if s.isPteCachable then
      let (hit, _, h, ts) := s.dataCache.TranslateLookup pgdEntryAddr 0 s.translationStats
      (hit, { s with dataCache := h, translationStats := ts })
    else (false, s)
  match s.GetPudPfn pgdIndex with
  | none => none
  | some (pudPfn, s) =>
      let s :=
        if hit then
          { s with translationStats :=
              { s.translationStats with pteDataCacheHits := s.translationStats.pteDataCacheHits + 1 } }
        else
          let ts := s.translationStats
          let ts := if s.isPteCachable then { ts with pteDataCacheMisses := ts.pteDataCacheMisses + 1 } else ts
          { s with translationStats := { ts with pageWalkMemAccess := ts.pageWalkMemAccess + 1 },
                   pgdStatsAccesses := s.pgdStatsAccesses + 1 }
      let s := { s with pgdPwc := s.pgdPwc.Insert vaddr pudPfn }
      CompletePgdCacheHit s vaddr pudPfn

/-- `Translate(vaddr)`: L1 TLB → L2 TLB → PMD PWC → PUD PWC → PGD PWC →
full walk; each hit path bumps its one path counter, resolves, refills the
TLBs, and returns `(pfn << kPageShift) | offset`. -/
def Translate (s : PageTable) (vaddr : Nat) : Option (Nat × PageTable) :=
  let vpn := vaddr >>> kPageShift
  let offset := s.GetOffset vaddr
  let (r1, t1) := s.l1Tlb.Lookup vpn
  let s := { s with l1Tlb := t1 }
  match r1 with
  | some pfn =>
      let s := { s with translationStats :=
        { s.translationStats with l1TlbHits := s.translationStats.l1TlbHits + 1 } }
      some (u64 (pfn <<< kPageShift) ||| offset, s)
  | none =>
  let (r2, t2) := s.l2Tlb.Lookup vpn
  let s := { s with l2Tlb := t2 }
  match r2 with
  | some pfn =>
      let s := { s with translationStats :=
        { s.translationStats with l2TlbHits := s.translationStats.l2TlbHits + 1 } }
      let s := { s with l1Tlb := s.l1Tlb.Insert vpn pfn }
      some (u64 (pfn <<< kPageShift) ||| offset, s)
  | none =>
  let (rp, p1) := s.pmdPwc.Lookup vaddr
  let s := { s with pmdPwc := p1 }
  match rp with
  | some pteTablePfn =>
      let s := { s with translationStats :=
        { s.translationStats with pmdCacheHits := s.translationStats.pmdCacheHits + 1 } }
      match CompletePmdCacheHit s vaddr pteTablePfn with
      | none => none
      | some (paddr, s) =>
          let pfn := paddr >>> kPageShift
          let s := { s with l1Tlb := s.l1Tlb.Insert vpn pfn }
          let s := { s with l2Tlb := s.l2Tlb.Insert vpn pfn }
          some (paddr, s)
  | none =>
  let (ru, p2) := s.pudPwc.Lookup vaddr
  let s := { s with pudPwc := p2 }
  match ru with
  | some pmdTablePfn =>
      let s := { s with translationStats :=
        { s.translationStats with pudCacheHits := s.translationStats.pudCacheHits + 1 } }
      match CompletePudCacheHit s vaddr pmdTablePfn with
      | none => none
      | some (paddr, s) =>
          let pfn := paddr >>> kPageShift
          let s := { s with l1Tlb := s.l1Tlb.Insert vpn pfn }
          let s := { s with l2Tlb := s.l2Tlb.Insert vpn pfn }
          some (paddr, s)
  | none =>
  let (rg, p3) := s.pgdPwc.Lookup vaddr
  let s := { s with pgdPwc := p3 }
  match rg with
  | some pudTablePfn =>
      let s := { s with translationStats :=
        { s.translationStats with pgdCacheHits := s.translationStats.pgdCacheHits + 1 } }
      match CompletePgdCacheHit s vaddr pudTablePfn with
      | none => none
      | some (paddr, s) =>
          let pfn := paddr >>> kPageShift
          let s := { s with l1Tlb := s.l1Tlb.Insert vpn pfn }
          let s := { s with l2Tlb := s.l2Tlb.Insert vpn pfn }
          some (paddr, s)
  | none =>
      let s := { s with translationStats :=
        { s.translationStats with fullWalks := s.translationStats.fullWalks + 1 } }
      match CompleteFullWalk s vaddr with
      | none => none
      | some (paddr, s) =>
          let pfn := paddr >>> kPageShift
          let s := { s with l1Tlb := s.l1Tlb.Insert vpn pfn }
          let s := { s with l2Tlb := s.l2Tlb.Insert vpn pfn }
          some (paddr, s)

end PageTable

/-! ## PageTable construction (page_table.h, current variant)

Constructor parameter bundle and the constructor itself.  The C++ body
allocates the root PGD page first and then runs its `assert`s; a failed
`assert` (or exhausted physical memory) is `none`.  `SetTocEnabled` /
`SetTocSize` on the PWCs configure the TOC mode, whose class is not among
the repository sources; no observable of the claims below depends on it. -/

structure PageTableConfig where
  isPteCachable : Bool
  l1TlbSize : Nat
  l1TlbWays : Nat
  l2TlbSize : Nat
  l2TlbWays : Nat
  pgdPwcSize : Nat
  pgdPwcWays : Nat
  pudPwcSize : Nat
  pudPwcWays : Nat
  pmdPwcSize : Nat
  pmdPwcWays : Nat
  pgdEntryNum : Nat
  pudEntryNum : Nat
  pmdEntryNum : Nat
  pteEntryNum : Nat
  tocEnabled : Bool
  tocSize : Nat

namespace PageTable

/-- The member-initialiser computations of the constructor. -/
def pmdShiftOf (cfg : PageTableConfig) : Nat := kPageShift + StaticLog2 cfg.pteEntryNum

def pudShiftOf (cfg : PageTableConfig) : Nat := pmdShiftOf cfg + StaticLog2 cfg.pmdEntryNum

def pgdShiftOf (cfg : PageTableConfig) : Nat := pudShiftOf cfg + StaticLog2 cfg.pudEntryNum

/-- The constructor's `assert`s: each per-level entry count passes
`(n & (n - 1)) == 0`, the shift invariant
`pgdShift_ + StaticLog2(pgdEntryNum) == 48` holds, and the TOC
configuration is consistent. -/
def ctorAsserts (cfg : PageTableConfig) : Bool :=
  (cfg.pgdEntryNum &&& (cfg.pgdEntryNum - 1) == 0) &&
  (cfg.pudEntryNum &&& (cfg.pudEntryNum - 1) == 0) &&
  (cfg.pmdEntryNum &&& (cfg.pmdEntryNum - 1) == 0) &&
  (cfg.pteEntryNum &&& (cfg.pteEntryNum - 1) == 0) &&
  (pgdShiftOf cfg + StaticLog2 cfg.pgdEntryNum == 48) &&
  (if cfg.tocEnabled then decide (0 < cfg.tocSize) && (cfg.tocSize &&& (cfg.tocSize - 1) == 0)
   else cfg.tocSize == 0)

/-- `PageTable(physicalMemory, dataCache, …)`. -/
def mk0 (physicalMemory : PhysicalMemory) (dataCache : CacheHierarchy)
    (cfg : PageTableConfig) : Option PageTable :=
  match physicalMemory.AllocateFrame 0 with
  | none => none
  | some (frame, pm) =>
      let cr3 := u64 (frame * kMemTracePageSize)
      let s : PageTable :=
        { pageTables := setPage (fun _ => PageTablePage.init) cr3,
          cr3 := cr3, physMem := pm, dataCache := dataCache,
          isPteCachable := cfg.isPteCachable,
          l1Tlb := TLB.mk0 cfg.l1TlbSize cfg.l1TlbWays,
          l2Tlb := TLB.mk0 cfg.l2TlbSize cfg.l2TlbWays,
          pgdEntryNum := cfg.pgdEntryNum, pudEntryNum := cfg.pudEntryNum,
          pmdEntryNum := cfg.pmdEntryNum, pteEntryNum := cfg.pteEntryNum,
          pgdEntryWidth := 8,
          pudEntryWidth := 4096 >>> StaticLog2 cfg.pudEntryNum,
          pmdEntryWidth := 4096 >>> StaticLog2 cfg.pmdEntryNum,
          pteEntryWidth := 4096 >>> StaticLog2 cfg.pteEntryNum,
          pteIndexShift := kPageShift,
          pmdShift := pmdShiftOf cfg,
          pudShift := pudShiftOf cfg,
          pgdShift := pgdShiftOf cfg,
          pgdPwc := PageWalkCache.mk0 cfg.pgdPwcSize cfg.pgdPwcWays (pgdShiftOf cfg) 47,
          pudPwc := PageWalkCache.mk0 cfg.pudPwcSize cfg.pudPwcWays (pudShiftOf cfg) 47,
          pmdPwc := PageWalkCache.mk0 cfg.pmdPwcSize cfg.pmdPwcWays (pmdShiftOf cfg) 47,
          translationStats := TranslationStats.init,
          pgdStatsAccesses := 0, pgdStatsAllocations := 1, pgdStatsEntries := 0,
          pudStatsAccesses := 0, pudStatsAllocations := 0, pudStatsEntries := 0,
          pmdStatsAccesses := 0, pmdStatsAllocations := 0, pmdStatsEntries := 0,
          pteStatsAccesses := 0, pteStatsAllocations := 0, pteStatsEntries := 0 }
      if ctorAsserts cfg then some s else none

/-- A batch of references: `Translate` folded over a list of effective
addresses (the per-reference loop of `ProcessBatch`, translation part). -/
def runTranslates (s : PageTable) : List Nat → Option PageTable
  | [] => some s
  | v :: vs =>
      match Translate s v with
      | none => none
      | some (_, s') => runTranslates s' vs

end PageTable

/-! ## Concrete default instances (SimConfig defaults from common.h) -/

/-- The `SimConfig` defaults for the page table, with
`pteCachable = false` (the default) and all entry counts 512. -/
def defaultPtConfig : PageTableConfig :=
  { isPteCachable := false,
    l1TlbSize := 64, l1TlbWays := 4, l2TlbSize := 1024, l2TlbWays := 8,
    pgdPwcSize := 4, pgdPwcWays := 4, pudPwcSize := 4, pudPwcWays := 4,
    pmdPwcSize := 16, pmdPwcWays := 4,
    pgdEntryNum := 512, pudEntryNum := 512, pmdEntryNum := 512,
    pteEntryNum := 512, tocEnabled := false, tocSize := 0 }

/-- `PhysicalMemory(config.PhysicalMemBytes())` with the default 30 GB. -/
def defaultPhysMem : PhysicalMemory := PhysicalMemory.mk0 (30 * (1 <<< 30))

/-- The default `CacheHierarchy` (32 KB / 256 KB / 8 MB, 64-byte lines). -/
def defaultHier : CacheHierarchy :=
  CacheHierarchy.mk0 (32 * 1024) 8 64 (256 * 1024) 16 64 (8 * 1024 * 1024) 16 64

/-- The simulator state after construction with the default configuration. -/
def defaultState : Option PageTable :=
  PageTable.mk0 defaultPhysMem defaultHier defaultPtConfig

/-! ## Concrete hierarchies for the write-path scenarios (C4) -/

/-- A hierarchy with a 32-byte L1 line and 64-byte L2/L3 lines (1-way 32 B L1,
2-way 128 B L2, 4-way 256 B L3), exercising unequal offset widths. -/
def c4Hier : CacheHierarchy := CacheHierarchy.mk0 32 1 32 128 2 64 256 4 64

/-- Two cold reads: address 0x1000 (fills all levels) and 0x4000 (evicts
0x1000 from the one-way L1 but not from L2). -/
def c4Mid : Option CacheHierarchy :=
  match c4Hier.Access 4096 1 false with
  | none => none
  | some r =>
      match r.2.2.Access 16384 2 false with
      | none => none
      | some r2 => some r2.2.2

/-- Observables of the subsequent write to 0x1000: L1 lookup hit?, L2 lookup
hit?, and the presence / dirtiness of the L2 entry tagged
`0x1000 >> l2.offsetBits` after the access. -/
def c4Obs : Option (Bool × Bool × Bool × Bool) :=
  match c4Mid with
  | none => none
  | some h2 =>
      match h2.Access 4096 3 true with
      | none => none
      | some r3 =>
          some ((h2.l1Cache.Lookup (4096 >>> h2.l1Cache.offsetBits) true).1.isSome,
                (h2.l2Cache.Lookup (4096 >>> h2.l2Cache.offsetBits) true).1.isSome,
                r3.2.2.l2Cache.linePresent (4096 >>> h2.l2Cache.offsetBits),
                r3.2.2.l2Cache.lineDirty (4096 >>> h2.l2Cache.offsetBits))

/-- The same scenario with equal (64-byte) line sizes at every level. -/
def c4HierEq : CacheHierarchy := CacheHierarchy.mk0 64 1 64 256 2 64 512 4 64

/-- Two cold reads of 0x1000 and 0x4000 on the equal-line-size hierarchy;
the write to 0x1000 then misses L1 and hits L2. -/
def c4MidEq : CacheHierarchy :=
  match c4HierEq.Access 4096 1 false with
  | none => c4HierEq
  | some r =>
      match r.2.2.Access 16384 2 false with
      | none => c4HierEq
      | some r2 => r2.2.2



/-- A configuration exercising the `n & (n-1) == 0` check at `n = 0`:
`pteEntryNum = 0` with `pgdEntryNum = 2^18` keeps the shift invariant
(`StaticLog2 0 = 0`). -/
def c9Cfg : PageTableConfig :=
  { defaultPtConfig with pgdEntryNum := 262144, pteEntryNum := 0 }


/-! ## Arithmetic helper lemmas -/

/-- The low 12 bits of `(pfn << kPageShift) | offset` (computed in `UINT64`
arithmetic) are exactly `offset`, for any page offset. -/

theorem combine_low_bits (pfn off : Nat) (h : off < 4096) :
    (u64 (pfn <<< kPageShift) ||| off) &&& kPageMask = off := by
  apply Nat.eq_of_testBit_eq
  intro i
  show ((((pfn <<< 12) % 2 ^ 64) ||| off) &&& (2 ^ 12 - 1)).testBit i = off.testBit i
  rw [Nat.and_pow_two_sub_one_eq_mod, Nat.testBit_mod_two_pow, Nat.testBit_or,
    Nat.testBit_mod_two_pow, Nat.testBit_shiftLeft]
  rcases lt_or_le i 12 with hi | hi
  · simp [hi, Nat.not_le.mpr hi]
  · have hoff : off.testBit i = false :=
      Nat.testBit_lt_two_pow
        (lt_of_lt_of_le h (Nat.pow_le_pow_right (show 0 < 2 by norm_num) hi))
    simp [Nat.not_lt.mpr hi, hoff]

/-- Bytes below 128 land in `[128, 255]` under `^^^ 255`. -/
theorem xor255_ge (p : Nat) (h : p < 128) : 128 ≤ p ^^^ 255 := by
  revert h
  revert p
  decide

/-- `^^^ 255` is an involution. -/
theorem xor255_invol (p : Nat) : (p ^^^ 255) ^^^ 255 = p := by
  rw [Nat.xor_assoc, Nat.xor_self, Nat.xor_zero]

/-! ## C10 -/

/-- C10: on the linear `PhysicalMemory` variant, every call to
`AllocateTinyPtrFrame` or `DecodeFrame`, for any arguments, unconditionally
fails its `assert(false)`: the tiny-pointer operations of the
`BasePhysicalMemory` interface are never valid on the linear allocator. -/
theorem c10_linear_tinyptr_always_fatal (m : PhysicalMemory)
    (key keyWidth tinyPointer : Nat) :
    m.AllocateTinyPtrFrame key keyWidth = none ∧
    m.DecodeFrame key tinyPointer = none :=
  ⟨rfl, rfl⟩

/-! ## C8

`Bin::Insert` with a narrowed `keyWidth` is supposed (per the claim, and
per the comment inside the function) to traverse the free list from
`head_` until a slot below `2^(keyWidth-1)` is found, failing fatally if
none exists.  The guard of the traversal loop is inverted
(`while (tmp < threadholdIndex)` under the branch condition
`tmp >= threadholdIndex`), so the loop body never runs and the function
returns the out-of-range slot `head_` itself.  The state below reaches the
branch from a freshly constructed bin by 63 in-range insertions. -/

/-- A fresh bin after 63 `Insert(·, 8)` calls: slots 1–63 allocated,
`head_ = 64`, not full. -/
def c8Bin : Po2CBin :=
  (List.range 63).foldl
    (fun b _ => match b.Insert 0 8 with
      | some (_, b') => b'
      | none => b)
    Po2CBin.init

/-- C8 (evaluation at the failing input): the bin is not full and its free
list starts at 64, yet `Insert(key, 7)` succeeds returning slot 64, which
is not below `2^(7-1) = 64` — contradicting the claimed range-restricted
traversal (the `assert(0)` exhaustion path is likewise unreachable). -/
theorem c8_insert_returns_out_of_range_slot :
    c8Bin.Full = false ∧ c8Bin.head = 64 ∧
    (c8Bin.Insert 0 7).map (fun r => r.1) = some 64 ∧ ¬ (64 < 2 ^ (7 - 1)) := by
  refine ⟨by decide, by decide, by decide, by decide⟩

/-! ## C5 -/

/-- C5 (counterexample): with the linear allocator, default configuration,
all entry counts 512 and `pteCachable = false`, the single reference
`ea = 0x1000` does NOT leave the state claimed (`fullWalks = 1`, exactly
one allocation at each of PGD/PUD/PMD/PTE, `GetAllocatedFrames() = 5`). -/
theorem c5_single_cold_read_claim_fails :
    ¬ ((defaultState.bind (fun s => s.Translate 0x1000)).map
        (fun r => (r.2.translationStats.fullWalks,
                   r.2.pgdStatsAllocations, r.2.pudStatsAllocations,
                   r.2.pmdStatsAllocations, r.2.pteStatsAllocations,
                   r.2.physMem.GetAllocatedFrames))
      = some (1, 1, 1, 1, 1, 5)) := by
  decide

/-- C5 (amended): the run performs one full walk and allocates one table
at the PGD, PUD and PMD levels, but the PTE level records TWO allocations
(`AllocatePhysFrameIfNotPresent` counts the data page at the PTE level as
well), and `GetAllocatedFrames()` is 6 because the constructor-reserved
frame 0 is counted as allocated (root + pud + pmd + pte + data page +
reserved frame 0).  The returned physical address preserves the zero page
offset. -/
theorem c5_single_cold_read_actual :
    (defaultState.bind (fun s => s.Translate 0x1000)).map
        (fun r => (r.1 &&& kPageMask,
                   r.2.translationStats.fullWalks,
                   r.2.pgdStatsAllocations, r.2.pudStatsAllocations,
                   r.2.pmdStatsAllocations, r.2.pteStatsAllocations,
                   r.2.physMem.GetAllocatedFrames))
      = some (0, 1, 1, 1, 1, 2, 6) := by
  rfl

/-! ## C6 -/

/-- Well-formedness of a bin needed for the round trip: when the bin is
not full its free-list head is an in-range slot.  It holds in a fresh bin
and is maintained by the allocator's own `assert(head_ <= 128)` together
with fullness. -/
def Po2CBin.WF (b : Po2CBin) : Prop := b.cnt = kBinSize ∨ b.head ≤ 127

theorem Po2CBin.insert_result (b : Po2CBin) (key kw : Nat) (r : Nat × Po2CBin)
    (h : b.Insert key kw = some r) :
    r.1 = kOverflowTinyPtr ∨ (r.1 = b.head ∧ b.Full = false) := by
  unfold Po2CBin.Insert at h
  split at h
  · left; cases h; rfl
  · rename_i hnf
    have hnf' : b.Full = false := by simpa using hnf
    dsimp only at h
    split at h
    · split at h
      · split at h
        · cases h; exact Or.inr ⟨rfl, hnf'⟩
        · simp at h
      · split at h
        · cases h; exact Or.inr ⟨rfl, hnf'⟩
        · simp at h
    · simp at h

theorem Po2CBin.wf_head_le (b : Po2CBin) (hWF : b.WF) (hnf : b.Full = false) :
    b.head ≤ 127 := by
  rcases hWF with hc | hh
  · unfold Po2CBin.Full at hnf
    rw [hc] at hnf
    simp at hnf
  · exact hh

/-- C6: for every key and every successful tiny-pointer allocation
`Allocate(key, keyWidth) = ((tiny, frame), t')`, decoding with the same key
recovers the same frame: `Query(key, tiny)` (the body of
`MosaicPhysicalMemory::DecodeFrame`) returns exactly `frame`.
(Hypotheses: the two candidate bins hashed from `key` satisfy the free-list
head invariant, which holds in fresh bins and is maintained by the
allocator's own `assert(head_ <= 128)`.) -/
theorem c6_allocate_query_roundtrip (t : MemoryPo2CTable) (key keyWidth : Nat)
    (h0 : (t.tab (t.hashBin false key)).WF)
    (h1 : (t.tab (t.hashBin true key)).WF) :
    (t.Allocate key keyWidth).all
      (fun r => r.2.Query key r.1.1 == some r.1.2) = true := by
  simp only [MemoryPo2CTable.Allocate]
  split
  · rfl
  · rename_i ptr bin' hIns
    split
    · rfl
    · rename_i hptr0
      split
      · -- chosen bin is hashBin true (flag = 1)
        rename_i hflag
        rw [if_pos hflag] at hIns
        rcases Po2CBin.insert_result _ _ _ _ hIns with h255 | ⟨hhead, hnful⟩
        · have hp : ptr = 255 := h255
          subst hp
          simp [kOverflowTinyPtr]
        · have hp : ptr = (t.tab (t.hashBin true key)).head := hhead
          have hle : ptr ≤ 127 := hp ▸ Po2CBin.wf_head_le _ h1 hnful
          have hp255 : ¬ ptr = 255 := by omega
          have hlt : ptr < 128 := by omega
          have hne255 : ¬ (ptr ^^^ 255) = 255 := by
            intro h
            apply hptr0
            have h2 := congrArg (· ^^^ 255) h
            simpa [xor255_invol, Nat.xor_self] using h2
          have hne0 : ¬ (ptr ^^^ 255) = 0 := by
            intro h
            apply hp255
            have h2 := congrArg (· ^^^ 255) h
            simpa [xor255_invol] using h2
          have e2 : (1 * if ptr ≠ kOverflowTinyPtr then 1 else 0) * 255 = 255 := by
            rw [if_pos (by simpa [kOverflowTinyPtr] using hp255)]
          rw [e2, if_pos ⟨by simpa [kOverflowTinyPtr] using hne255,
                          by simpa [kNullTinyPtr] using hne0⟩]
          simp only [Option.all_some, beq_iff_eq]
          simp only [MemoryPo2CTable.Query]
          rw [if_pos ⟨by simpa [kOverflowTinyPtr] using hne255,
                      by simpa [kNullTinyPtr] using hne0⟩]
          have hge : decide (128 ≤ ptr ^^^ 255) = true :=
            decide_eq_true (xor255_ge ptr hlt)
          simp only [ge_iff_le, hge, if_true, xor255_invol]
          have hflag2 : decide ((t.tab (t.hashBin true key)).Count < (t.tab (t.hashBin false key)).Count) = true := hflag
          have hfact := of_decide_eq_true hflag2
          simp [MemoryPo2CTable.hashBin] at hfact
          simp [MemoryPo2CTable.hashBin, hfact]
      · -- chosen bin is hashBin false (flag = 0)
        rename_i hflag
        rw [if_neg hflag] at hIns
        rcases Po2CBin.insert_result _ _ _ _ hIns with h255 | ⟨hhead, hnful⟩
        · have hp : ptr = 255 := h255
          subst hp
          simp [kOverflowTinyPtr]
        · have hp : ptr = (t.tab (t.hashBin false key)).head := hhead
          have hle : ptr ≤ 127 := hp ▸ Po2CBin.wf_head_le _ h0 hnful
          have hp255 : ¬ ptr = 255 := by omega
          have e2 : ptr ^^^ (0 * if ptr ≠ kOverflowTinyPtr then 1 else 0) * 255 = ptr := by
            simp
          rw [e2, if_pos ⟨by simpa [kOverflowTinyPtr] using hp255,
                      by simpa [kNullTinyPtr] using hptr0⟩]
          simp only [Option.all_some, beq_iff_eq]
          simp only [MemoryPo2CTable.Query]
          rw [if_pos ⟨by simpa [kOverflowTinyPtr] using hp255,
                      by simpa [kNullTinyPtr] using hptr0⟩]
          have hge : decide (128 ≤ ptr) = false := by
            simp; omega
          simp only [ge_iff_le, hge, if_false, Nat.xor_zero]
          have hflag2 : decide ((t.tab (t.hashBin true key)).Count < (t.tab (t.hashBin false key)).Count) = false := by
            simpa using hflag
          have hfact := of_decide_eq_false hflag2
          simp [MemoryPo2CTable.hashBin] at hfact
          simp [MemoryPo2CTable.hashBin, Nat.not_lt.mpr hfact]


/-- A concrete power-of-two-choices table for the witness. -/
def c6Table : MemoryPo2CTable :=
  MemoryPo2CTable.mk0 1000 (fun k => k) (fun k => k + 1)

/-- Witness for C6 at a concrete table and key. -/
theorem c6_allocate_query_roundtrip_witness :
    (c6Table.Allocate 5 8).all
      (fun r => r.2.Query 5 r.1.1 == some r.1.2) = true :=
  c6_allocate_query_roundtrip c6Table 5 8 (Or.inr (by decide)) (Or.inr (by decide))


/-! ## C1 -/

/-- `CompletePmdCacheHit` preserves the page offset of its `vaddr`:
every successful return is `(pfn << kPageShift) | offset`. -/
theorem completePmd_offset (s : PageTable) (v p : Nat) :
    (PageTable.CompletePmdCacheHit s v p).all
      (fun r => r.1 &&& kPageMask == v &&& kPageMask) = true := by
  have hofflt : v &&& kPageMask < 4096 :=
    lt_of_le_of_lt Nat.and_le_right (by norm_num [kPageMask, kMemTracePageSize])
  unfold PageTable.CompletePmdCacheHit
  repeat' split
  all_goals simp only [Option.all_none, Option.all_some, beq_iff_eq]
  all_goals generalize PageTable.GetPhysFrame _ _ _ = g
  all_goals rcases g with _ | ⟨pfn, s2⟩
  all_goals try rfl
  all_goals simp only [Option.all_some, beq_iff_eq]
  all_goals exact combine_low_bits _ _ hofflt


/-- `CompletePudCacheHit` preserves the page offset (it tail-calls
`CompletePmdCacheHit`). -/
theorem completePud_offset (s : PageTable) (v p : Nat) :
    (PageTable.CompletePudCacheHit s v p).all
      (fun r => r.1 &&& kPageMask == v &&& kPageMask) = true := by
  unfold PageTable.CompletePudCacheHit
  simp only []
  repeat' split
  all_goals try rfl
  all_goals exact completePmd_offset _ _ _

/-- `CompletePgdCacheHit` preserves the page offset. -/
theorem completePgd_offset (s : PageTable) (v p : Nat) :
    (PageTable.CompletePgdCacheHit s v p).all
      (fun r => r.1 &&& kPageMask == v &&& kPageMask) = true := by
  unfold PageTable.CompletePgdCacheHit
  simp only []
  repeat' split
  all_goals try rfl
  all_goals exact completePud_offset _ _ _

/-- `CompleteFullWalk` preserves the page offset. -/
theorem completeFullWalk_offset (s : PageTable) (v : Nat) :
    (PageTable.CompleteFullWalk s v).all
      (fun r => r.1 &&& kPageMask == v &&& kPageMask) = true := by
  unfold PageTable.CompleteFullWalk
  simp only []
  repeat' split
  all_goals try rfl
  all_goals exact completePgd_offset _ _ _


/-- An `Option.all` fact specialised at a known `some` value. -/
theorem all_offset_of_eq_some {o : Option (Nat × PageTable)} {v paddr : Nat}
    {s2 : PageTable}
    (hall : o.all (fun r => r.1 &&& kPageMask == v &&& kPageMask) = true)
    (heq : o = some (paddr, s2)) : paddr &&& kPageMask = v &&& kPageMask := by
  rw [heq] at hall
  simpa using hall

/-- C1: for every 64-bit virtual address `v` and every simulator state, a
successful `PageTable::Translate(v)` returns a physical address that
agrees with `v` on the low 12 bits
(`Translate(v) & 0xFFF == v & 0xFFF`, with `kPageMask = 0xFFF`): every
return path combines a frame number shifted left by `kPageShift` with the
original page offset. -/
theorem c1_translate_preserves_page_offset (s : PageTable) (v : Nat) :
    (PageTable.Translate s v).all
      (fun r => r.1 &&& kPageMask == v &&& kPageMask) = true := by
  have hofflt : v &&& kPageMask < 4096 :=
    lt_of_le_of_lt Nat.and_le_right (by norm_num [kPageMask, kMemTracePageSize])
  unfold PageTable.Translate
  simp only []
  repeat' split
  all_goals try rfl
  all_goals try (simp only [Option.all_some, beq_iff_eq]; exact combine_low_bits _ _ hofflt)
  all_goals
    rename_i heq
  all_goals simp only [Option.all_some, beq_iff_eq]
  all_goals
    first
    | exact all_offset_of_eq_some (completePmd_offset _ _ _) heq
    | exact all_offset_of_eq_some (completePud_offset _ _ _) heq
    | exact all_offset_of_eq_some (completePgd_offset _ _ _) heq
    | exact all_offset_of_eq_some (completeFullWalk_offset _ _) heq


/-! ## C2 -/

/-- `TranslateLookup` never touches the six translation-path counters. -/
theorem translateLookup_pathCounters (h : CacheHierarchy) (p val : Nat)
    (ts : TranslationStats) :
    ((h.TranslateLookup p val ts).2.2.2).pathCounters = ts.pathCounters := by
  unfold CacheHierarchy.TranslateLookup
  cases hc2 : (h.l2Cache.Lookup (p >>> h.l2Cache.offsetBits) false).1 with
  | none =>
      cases hc3 : (h.l3Cache.Lookup (p >>> h.l3Cache.offsetBits) false).1 with
      | none => simp [hc2, hc3, TranslationStats.pathCounters]
      | some w => simp [hc2, hc3, TranslationStats.pathCounters]
  | some v => simp [hc2, TranslationStats.pathCounters]

/-- Componentwise form of the previous lemma, convenient for `simp`. -/
theorem translateLookup_pathFields (h : CacheHierarchy) (p val : Nat)
    (ts : TranslationStats) :
    ((h.TranslateLookup p val ts).2.2.2).l1TlbHits = ts.l1TlbHits ∧
    ((h.TranslateLookup p val ts).2.2.2).l2TlbHits = ts.l2TlbHits ∧
    ((h.TranslateLookup p val ts).2.2.2).pmdCacheHits = ts.pmdCacheHits ∧
    ((h.TranslateLookup p val ts).2.2.2).pudCacheHits = ts.pudCacheHits ∧
    ((h.TranslateLookup p val ts).2.2.2).pgdCacheHits = ts.pgdCacheHits ∧
    ((h.TranslateLookup p val ts).2.2.2).fullWalks = ts.fullWalks := by
  have hx := translateLookup_pathCounters h p val ts
  simpa [TranslationStats.pathCounters] using hx

/-- The level resolvers never touch `translationStats_` at all. -/
theorem getPudPfn_stats (s : PageTable) (i : Nat) :
    (PageTable.GetPudPfn s i).all
      (fun r => r.2.translationStats == s.translationStats) = true := by
  unfold PageTable.GetPudPfn
  simp only []
  split
  · split
    · rfl
    · simp
  · simp

theorem narrowResolve_stats (s : PageTable) (view : Nat → PageTableEntryNarrow)
    (i a : Nat) :
    (PageTable.narrowResolve s view i a).all
      (fun r => r.2.translationStats == s.translationStats) = true := by
  unfold PageTable.narrowResolve
  simp only []
  split
  all_goals simp [PhysicalMemory.AllocateTinyPtrFrame, PhysicalMemory.DecodeFrame]

theorem getPmdPfn_stats (s : PageTable) (i a : Nat) :
    (PageTable.GetPmdPfn s i a).all
      (fun r => r.2.translationStats == s.translationStats) = true := by
  unfold PageTable.GetPmdPfn
  simp only []
  split
  · split
    · split
      · rfl
      · simp
    · simp
  · exact narrowResolve_stats _ _ _ _
  · exact narrowResolve_stats _ _ _ _
  · exact narrowResolve_stats _ _ _ _
  · rfl

theorem getPtePfn_stats (s : PageTable) (i a : Nat) :
    (PageTable.GetPtePfn s i a).all
      (fun r => r.2.translationStats == s.translationStats) = true := by
  unfold PageTable.GetPtePfn
  simp only []
  split
  · split
    · split
      · rfl
      · simp
    · simp
  · exact narrowResolve_stats _ _ _ _
  · exact narrowResolve_stats _ _ _ _
  · exact narrowResolve_stats _ _ _ _
  · rfl

theorem getPhysFrame_stats (s : PageTable) (i a : Nat) :
    (PageTable.GetPhysFrame s i a).all
      (fun r => r.2.translationStats == s.translationStats) = true := by
  unfold PageTable.GetPhysFrame
  simp only []
  split
  · split
    · split
      · rfl
      · simp
    · simp
  · exact narrowResolve_stats _ _ _ _
  · exact narrowResolve_stats _ _ _ _
  · exact narrowResolve_stats _ _ _ _
  · rfl

/-- Specialise an `Option.all` stats fact at a known `some` value. -/
theorem all_stats_of_eq_some {o : Option (Nat × PageTable)}
    {ts : TranslationStats} {pfn : Nat} {s2 : PageTable}
    (hall : o.all (fun r => r.2.translationStats == ts) = true)
    (heq : o = some (pfn, s2)) : s2.translationStats = ts := by
  rw [heq] at hall
  simpa using hall


/-- `CompletePmdCacheHit` never changes the six translation-path counters. -/
theorem completePmd_pathCounters (s : PageTable) (v p : Nat) :
    (PageTable.CompletePmdCacheHit s v p).all
      (fun r => r.2.translationStats.pathCounters ==
                s.translationStats.pathCounters) = true := by
  unfold PageTable.CompletePmdCacheHit
  simp only []
  by_cases hC : s.isPteCachable = true
  · simp only [if_pos hC]
    repeat' split
    all_goals try rfl
    all_goals
      have h1 := all_stats_of_eq_some (getPhysFrame_stats _ _ _) (by assumption)
    all_goals simp only [h1]
    all_goals simp [TranslationStats.pathCounters, translateLookup_pathFields]
  · simp only [if_neg hC]
    repeat' split
    all_goals try rfl
    all_goals
      have h1 := all_stats_of_eq_some (getPhysFrame_stats _ _ _) (by assumption)
    all_goals simp [h1, TranslationStats.pathCounters]

/-- Transport an `Option.all` path-counter fact along an equality of
counter lists. -/
theorem all_counters_mono (o : Option (Nat × PageTable)) (a b : List Nat)
    (hab : a = b)
    (h : o.all (fun r => r.2.translationStats.pathCounters == a) = true) :
    o.all (fun r => r.2.translationStats.pathCounters == b) = true := by
  subst hab; exact h

/-- `CompletePudCacheHit` never changes the six translation-path counters. -/
theorem completePud_pathCounters (s : PageTable) (v p : Nat) :
    (PageTable.CompletePudCacheHit s v p).all
      (fun r => r.2.translationStats.pathCounters ==
                s.translationStats.pathCounters) = true := by
  unfold PageTable.CompletePudCacheHit
  simp only []
  by_cases hC : s.isPteCachable = true
  · simp only [if_pos hC]
    repeat' split
    all_goals try rfl
    all_goals
      have h1 := all_stats_of_eq_some (getPtePfn_stats _ _ _) (by assumption)
    all_goals refine all_counters_mono _ _ _ ?_ (completePmd_pathCounters _ _ _)
    all_goals simp only [h1]
    all_goals simp [TranslationStats.pathCounters, translateLookup_pathFields]
  · simp only [if_neg hC]
    repeat' split
    all_goals try rfl
    all_goals
      have h1 := all_stats_of_eq_some (getPtePfn_stats _ _ _) (by assumption)
    all_goals refine all_counters_mono _ _ _ ?_ (completePmd_pathCounters _ _ _)
    all_goals simp [h1, TranslationStats.pathCounters]

/-- `CompletePgdCacheHit` never changes the six translation-path counters. -/
theorem completePgd_pathCounters (s : PageTable) (v p : Nat) :
    (PageTable.CompletePgdCacheHit s v p).all
      (fun r => r.2.translationStats.pathCounters ==
                s.translationStats.pathCounters) = true := by
  unfold PageTable.CompletePgdCacheHit
  simp only []
  by_cases hC : s.isPteCachable = true
  · simp only [if_pos hC]
    repeat' split
    all_goals try rfl
    all_goals
      have h1 := all_stats_of_eq_some (getPmdPfn_stats _ _ _) (by assumption)
    all_goals refine all_counters_mono _ _ _ ?_ (completePud_pathCounters _ _ _)
    all_goals simp only [h1]
    all_goals simp [TranslationStats.pathCounters, translateLookup_pathFields]
  · simp only [if_neg hC]
    repeat' split
    all_goals try rfl
    all_goals
      have h1 := all_stats_of_eq_some (getPmdPfn_stats _ _ _) (by assumption)
    all_goals refine all_counters_mono _ _ _ ?_ (completePud_pathCounters _ _ _)
    all_goals simp [h1, TranslationStats.pathCounters]

/-- `CompleteFullWalk` never changes the six translation-path counters. -/
theorem completeFullWalk_pathCounters (s : PageTable) (v : Nat) :
    (PageTable.CompleteFullWalk s v).all
      (fun r => r.2.translationStats.pathCounters ==
                s.translationStats.pathCounters) = true := by
  unfold PageTable.CompleteFullWalk
  simp only []
  by_cases hC : s.isPteCachable = true
  · simp only [if_pos hC]
    repeat' split
    all_goals try rfl
    all_goals
      have h1 := all_stats_of_eq_some (getPudPfn_stats _ _) (by assumption)
    all_goals refine all_counters_mono _ _ _ ?_ (completePgd_pathCounters _ _ _)
    all_goals simp only [h1]
    all_goals simp [TranslationStats.pathCounters, translateLookup_pathFields]
  · simp only [if_neg hC]
    repeat' split
    all_goals try rfl
    all_goals
      have h1 := all_stats_of_eq_some (getPudPfn_stats _ _) (by assumption)
    all_goals refine all_counters_mono _ _ _ ?_ (completePgd_pathCounters _ _ _)
    all_goals simp [h1, TranslationStats.pathCounters]

/-- Specialise an `Option.all` path-counter fact at a known `some` value. -/
theorem all_counters_of_eq_some {o : Option (Nat × PageTable)}
    {a : List Nat} {pfn : Nat} {s2 : PageTable}
    (hall : o.all (fun r => r.2.translationStats.pathCounters == a) = true)
    (heq : o = some (pfn, s2)) : s2.translationStats.pathCounters = a := by
  rw [heq] at hall
  simpa using hall

/-- Each `Translate` call bumps exactly one of the six path counters. -/
theorem translate_oneStep (s : PageTable) (v : Nat) :
    (PageTable.Translate s v).all
      (fun r => TranslationStats.oneStep s.translationStats
                  r.2.translationStats) = true := by
  unfold PageTable.Translate
  simp only []
  repeat' split
  all_goals
    first
    | rfl
    | (have h1 := all_counters_of_eq_some (completePmd_pathCounters _ _ _) (by assumption)
       simp [TranslationStats.pathCounters] at h1
       obtain ⟨e1, e2, e3, e4, e5, e6⟩ := h1
       simp [TranslationStats.oneStep, TranslationStats.pathCounters, e1, e2, e3, e4, e5, e6])
    | (have h1 := all_counters_of_eq_some (completePud_pathCounters _ _ _) (by assumption)
       simp [TranslationStats.pathCounters] at h1
       obtain ⟨e1, e2, e3, e4, e5, e6⟩ := h1
       simp [TranslationStats.oneStep, TranslationStats.pathCounters, e1, e2, e3, e4, e5, e6])
    | (have h1 := all_counters_of_eq_some (completePgd_pathCounters _ _ _) (by assumption)
       simp [TranslationStats.pathCounters] at h1
       obtain ⟨e1, e2, e3, e4, e5, e6⟩ := h1
       simp [TranslationStats.oneStep, TranslationStats.pathCounters, e1, e2, e3, e4, e5, e6])
    | (have h1 := all_counters_of_eq_some (completeFullWalk_pathCounters _ _) (by assumption)
       simp [TranslationStats.pathCounters] at h1
       obtain ⟨e1, e2, e3, e4, e5, e6⟩ := h1
       simp [TranslationStats.oneStep, TranslationStats.pathCounters, e1, e2, e3, e4, e5, e6])
    | simp [TranslationStats.oneStep, TranslationStats.pathCounters]

/-- `GetTotalTranslation` is the sum of the six path counters. -/
theorem total_eq_sum (ts : TranslationStats) :
    ts.GetTotalTranslation = ts.pathCounters.sum := by
  simp [TranslationStats.GetTotalTranslation, TranslationStats.pathCounters]
  omega

/-- Each `Translate` call raises `GetTotalTranslation` by exactly one. -/
theorem translate_total (s : PageTable) (v : Nat) :
    (PageTable.Translate s v).all
      (fun r => r.2.translationStats.GetTotalTranslation ==
                s.translationStats.GetTotalTranslation + 1) = true := by
  unfold PageTable.Translate
  simp only []
  repeat' split
  all_goals
    first
    | rfl
    | (have h1 := all_counters_of_eq_some (completePmd_pathCounters _ _ _) (by assumption)
       simp [TranslationStats.pathCounters] at h1
       obtain ⟨e1, e2, e3, e4, e5, e6⟩ := h1
       simp [TranslationStats.GetTotalTranslation, beq_iff_eq, e1, e2, e3, e4, e5, e6]
       omega)
    | (have h1 := all_counters_of_eq_some (completePud_pathCounters _ _ _) (by assumption)
       simp [TranslationStats.pathCounters] at h1
       obtain ⟨e1, e2, e3, e4, e5, e6⟩ := h1
       simp [TranslationStats.GetTotalTranslation, beq_iff_eq, e1, e2, e3, e4, e5, e6]
       omega)
    | (have h1 := all_counters_of_eq_some (completePgd_pathCounters _ _ _) (by assumption)
       simp [TranslationStats.pathCounters] at h1
       obtain ⟨e1, e2, e3, e4, e5, e6⟩ := h1
       simp [TranslationStats.GetTotalTranslation, beq_iff_eq, e1, e2, e3, e4, e5, e6]
       omega)
    | (have h1 := all_counters_of_eq_some (completeFullWalk_pathCounters _ _) (by assumption)
       simp [TranslationStats.pathCounters] at h1
       obtain ⟨e1, e2, e3, e4, e5, e6⟩ := h1
       simp [TranslationStats.GetTotalTranslation, beq_iff_eq, e1, e2, e3, e4, e5, e6]
       omega)
    | (simp [TranslationStats.GetTotalTranslation, beq_iff_eq]
       omega)

/-- Running a list of translations adds its length to the total. -/
theorem runTranslates_total (s : PageTable) (vs : List Nat) :
    (PageTable.runTranslates s vs).all
      (fun s2 => s2.translationStats.GetTotalTranslation ==
                 s.translationStats.GetTotalTranslation + vs.length) = true := by
  induction vs generalizing s with
  | nil => simp [PageTable.runTranslates]
  | cons v vs ih =>
      unfold PageTable.runTranslates
      cases hT : PageTable.Translate s v with
      | none => rfl
      | some r =>
          obtain ⟨pfn, s1⟩ := r
          have h1 := translate_total s v
          rw [hT] at h1
          simp [beq_iff_eq] at h1
          have h2 := ih s1
          cases hR : PageTable.runTranslates s1 vs with
          | none => simp [hR]
          | some s2 =>
              rw [hR] at h2
              simp [beq_iff_eq] at h2
              simp [hR, beq_iff_eq]
              omega

/-- The constructor starts with a zero translation total. -/
theorem mk0_total (pm : PhysicalMemory) (dc : CacheHierarchy)
    (cfg : PageTableConfig) :
    (PageTable.mk0 pm dc cfg).all
      (fun s0 => s0.translationStats.GetTotalTranslation == 0) = true := by
  unfold PageTable.mk0
  repeat' split
  all_goals rfl

/-- C2: every `PageTable::Translate` call bumps exactly one of the six
translation-path counters (`l1TlbHits`, `l2TlbHits`, `pmdCacheHits`,
`pudCacheHits`, `pgdCacheHits`, `fullWalks`), and consequently after a
freshly constructed page table performs any successful sequence of `n`
translations, `GetTotalTranslation` (the sum of the six) equals `n`. -/
theorem c2_exactly_one_path_counter :
    (∀ (s : PageTable) (v : Nat),
       (PageTable.Translate s v).all
         (fun r => TranslationStats.oneStep s.translationStats
                     r.2.translationStats) = true)
    ∧ (∀ (pm : PhysicalMemory) (dc : CacheHierarchy) (cfg : PageTableConfig)
         (vs : List Nat),
       ((PageTable.mk0 pm dc cfg).bind
           (fun s0 => PageTable.runTranslates s0 vs)).all
         (fun s2 => s2.translationStats.GetTotalTranslation ==
                    vs.length) = true) := by
  refine ⟨translate_oneStep, ?_⟩
  intro pm dc cfg vs
  cases hM : PageTable.mk0 pm dc cfg with
  | none => rfl
  | some s0 =>
      have h0 := mk0_total pm dc cfg
      rw [hM] at h0
      simp [beq_iff_eq] at h0
      have h := runTranslates_total s0 vs
      cases hR : PageTable.runTranslates s0 vs with
      | none => simp [hR]
      | some s2 =>
          rw [hR] at h
          simp [beq_iff_eq] at h
          simp [hR, beq_iff_eq]
          omega

theorem findLruAux_cases (l : List CacheEntry) (way lw c : Nat) :
    SetAssociativeCache.findLruAux l way lw c = lw ∨
    (way ≤ SetAssociativeCache.findLruAux l way lw c ∧
     SetAssociativeCache.findLruAux l way lw c < way + l.length) := by
  induction l generalizing way lw c with
  | nil => left; rfl
  | cons e rest ih =>
      by_cases hv : e.valid = true
      · by_cases hc : e.lruCounter < c
        · have hg : SetAssociativeCache.findLruAux (e :: rest) way lw c
              = SetAssociativeCache.findLruAux rest (way + 1) way e.lruCounter := by
            conv_lhs => unfold SetAssociativeCache.findLruAux
            simp [hv, hc]
          rw [hg]
          rcases ih (way + 1) way e.lruCounter with h | ⟨h1, h2⟩
          · right
            rw [h]
            refine ⟨Nat.le_refl _, ?_⟩
            simp only [List.length_cons]
            omega
          · right
            refine ⟨by omega, ?_⟩
            simp only [List.length_cons]
            omega
        · have hg : SetAssociativeCache.findLruAux (e :: rest) way lw c
              = SetAssociativeCache.findLruAux rest (way + 1) lw c := by
            conv_lhs => unfold SetAssociativeCache.findLruAux
            simp [hv, hc]
          rw [hg]
          rcases ih (way + 1) lw c with h | ⟨h1, h2⟩
          · left; exact h
          · right
            refine ⟨by omega, ?_⟩
            simp only [List.length_cons]
            omega
      · have hg : SetAssociativeCache.findLruAux (e :: rest) way lw c = way := by
          conv_lhs => unfold SetAssociativeCache.findLruAux
          simp [hv]
        rw [hg]
        right
        refine ⟨Nat.le_refl _, ?_⟩
        simp only [List.length_cons]
        omega

theorem findLruWay_lt (c : SetAssociativeCache) (si : Nat)
    (h : 0 < (c.sets.getD si []).length) :
    c.findLruWay si < (c.sets.getD si []).length := by
  unfold SetAssociativeCache.findLruWay
  rcases findLruAux_cases (c.sets.getD si []) 0 0 ((c.getEntry si 0).lruCounter)
    with hc | ⟨h1, h2⟩
  · omega
  · omega

theorem findWayAux_set (tag : Nat) (row : List CacheEntry) (k wi : Nat)
    (e : CacheEntry)
    (hnone : SetAssociativeCache.findWayAux tag row k = none)
    (hwi : wi < row.length) (hv : e.valid = true) (ht : e.tag = tag) :
    SetAssociativeCache.findWayAux tag (row.set wi e) k = some (k + wi) := by
  induction row generalizing k wi with
  | nil => simp at hwi
  | cons a rest ih =>
      unfold SetAssociativeCache.findWayAux at hnone
      by_cases hm : (a.valid && a.tag == tag) = true
      · simp [hm] at hnone
      · cases wi with
        | zero =>
            simp only [List.set]
            unfold SetAssociativeCache.findWayAux
            simp [hv, ht]
        | succ wi =>
            simp only [List.set]
            unfold SetAssociativeCache.findWayAux
            rw [if_neg hm]
            have hr := ih (k + 1) wi (by simpa [hm] using hnone) (by simpa using hwi)
            have h2 : k + (wi + 1) = (k + 1) + wi := by omega
            rw [h2]
            exact hr

theorem insert_fresh (c : SetAssociativeCache) (si tag value : Nat) (w : Bool)
    (hmiss : c.findWay si tag = none)
    (hrow : 0 < (c.sets.getD si []).length)
    (hsi : si < c.sets.length) :
    (c.Insert si tag value w).1.findWay si tag = some (c.findLruWay si) ∧
    ((c.Insert si tag value w).1.getEntry si (c.findLruWay si)).dirty = w := by
  have hv := findLruWay_lt c si hrow
  have hgd0 : c.sets.getD si [] = c.sets[si] := by
    simp [List.getD, List.getElem?_eq_getElem hsi]
  have hv2 : c.findLruWay si < (c.sets[si]).length := by rwa [hgd0] at hv
  have hne : SetAssociativeCache.findWayAux tag (c.sets.getD si []) 0 = none := hmiss
  have hIns : (c.Insert si tag value w).1.sets
      = c.sets.set si ((c.sets.getD si []).set (c.findLruWay si)
          { tag := tag, value := value, valid := true, dirty := w,
            lruCounter := c.globalLruCounter + 1 }) := by
    unfold SetAssociativeCache.Insert
    rw [hmiss]
    unfold SetAssociativeCache.updateLru SetAssociativeCache.setEntry
      SetAssociativeCache.getEntry
    simp [List.getD, List.getElem?_set, hsi, hv2, List.set_set]
  constructor
  · unfold SetAssociativeCache.findWay
    rw [hIns]
    have hgd : ((c.sets.set si ((c.sets.getD si []).set (c.findLruWay si)
          { tag := tag, value := value, valid := true, dirty := w,
            lruCounter := c.globalLruCounter + 1 })).getD si [])
        = (c.sets.getD si []).set (c.findLruWay si)
          { tag := tag, value := value, valid := true, dirty := w,
            lruCounter := c.globalLruCounter + 1 } := by
      simp [List.getD, List.getElem?_set, hsi]
    rw [hgd]
    have hfw := findWayAux_set tag (c.sets.getD si []) 0 (c.findLruWay si)
      { tag := tag, value := value, valid := true, dirty := w,
        lruCounter := c.globalLruCounter + 1 } hne hv rfl rfl
    simpa using hfw
  · unfold SetAssociativeCache.getEntry
    rw [hIns]
    simp [List.getD, List.getElem?_set, hsi, hv, hv2]

theorem sac_insert_numSets (c : SetAssociativeCache) (si tag value : Nat)
    (w : Bool) : (c.Insert si tag value w).1.numSets = c.numSets := by
  unfold SetAssociativeCache.Insert SetAssociativeCache.updateLru
    SetAssociativeCache.setEntry
  repeat' split
  all_goals rfl

theorem dc_insert_view (d : DataCache) (tag value : Nat) (w : Bool) :
    (d.Insert tag value w).1
      = { d with sac := (d.sac.Insert (d.GetSetIndex tag) tag value w).1 } := by
  unfold DataCache.Insert
  rfl

theorem dc_insert_clean (d : DataCache) (tag value : Nat) (w : Bool)
    (hmiss : d.sac.findWay (d.GetSetIndex tag) tag = none)
    (hrow : 0 < (d.sac.sets.getD (d.GetSetIndex tag) []).length)
    (hsi : d.GetSetIndex tag < d.sac.sets.length) :
    (d.Insert tag value w).1.linePresent tag = true ∧
    (d.Insert tag value w).1.lineDirty tag = w := by
  have hins := insert_fresh d.sac (d.GetSetIndex tag) tag value w hmiss hrow hsi
  have hnum := sac_insert_numSets d.sac (d.GetSetIndex tag) tag value w
  rw [dc_insert_view]
  have hidx : ({ d with sac := (d.sac.Insert (d.GetSetIndex tag) tag value w).1
               } : DataCache).GetSetIndex tag = d.GetSetIndex tag := by
    unfold DataCache.GetSetIndex
    rw [sac_insert_numSets]
  constructor
  · unfold DataCache.linePresent
    rw [hidx, hins.1]
    rfl
  · unfold DataCache.lineDirty
    rw [hidx, hins.1]
    exact hins.2

theorem wfb_bounds (c : SetAssociativeCache) (hwf : c.wfb = true)
    (hns : 0 < c.numSets) (tag : Nat) :
    (tag &&& (c.numSets - 1)) < c.sets.length ∧
    0 < (c.sets.getD (tag &&& (c.numSets - 1)) []).length := by
  unfold SetAssociativeCache.wfb at hwf
  simp [List.all_eq_true] at hwf
  obtain ⟨⟨hlen, hrows⟩, hways⟩ := hwf
  have hand : (tag &&& (c.numSets - 1)) ≤ c.numSets - 1 := Nat.and_le_right
  have hsi : (tag &&& (c.numSets - 1)) < c.sets.length := by omega
  refine ⟨hsi, ?_⟩
  have hgd : c.sets.getD (tag &&& (c.numSets - 1)) []
      = c.sets[(tag &&& (c.numSets - 1))] := by
    simp [List.getD, List.getElem?_eq_getElem hsi]
  rw [hgd]
  have hmem : c.sets[(tag &&& (c.numSets - 1))] ∈ c.sets := List.getElem_mem hsi
  have := hrows _ hmem
  omega

theorem findWay_congr (c c2 : SetAssociativeCache) (si t : Nat)
    (h : c.sets = c2.sets) : c.findWay si t = c2.findWay si t := by
  unfold SetAssociativeCache.findWay
  rw [h]

theorem dc_lookup_miss (d : DataCache) (tag : Nat) (w : Bool)
    (hm : (d.Lookup tag w).1 = none) :
    (d.Lookup tag w).2.sac.sets = d.sac.sets ∧
    (d.Lookup tag w).2.sac.numSets = d.sac.numSets ∧
    d.sac.findWay (d.GetSetIndex tag) tag = none := by
  have hb : ({ d.sac with accesses := d.sac.accesses + 1 }
      : SetAssociativeCache).findWay (d.GetSetIndex tag) tag
      = d.sac.findWay (d.GetSetIndex tag) tag := findWay_congr _ _ _ _ rfl
  unfold DataCache.Lookup SetAssociativeCache.Lookup at hm ⊢
  simp only [] at hm ⊢
  rw [hb] at hm ⊢
  cases hf : d.sac.findWay (d.GetSetIndex tag) tag with
  | some v =>
      rw [hf] at hm
      simp at hm
  | none =>
      repeat' split
      all_goals simp_all

theorem l3Insert_parts (h : CacheHierarchy) (t v : Nat) (w : Bool) :
    (h.l3Insert t v w).l1Cache = h.l1Cache ∧
    (h.l3Insert t v w).l2Cache = h.l2Cache ∧
    h.memAccessCount ≤ (h.l3Insert t v w).memAccessCount := by
  unfold CacheHierarchy.l3Insert
  repeat' split
  all_goals simp

theorem l2Insert_parts (h : CacheHierarchy) (t v : Nat) (w : Bool) :
    (h.l2Insert t v w).l1Cache = h.l1Cache ∧
    h.memAccessCount ≤ (h.l2Insert t v w).memAccessCount := by
  unfold CacheHierarchy.l2Insert
  repeat' split
  all_goals refine ⟨?_, ?_⟩
  all_goals first
    | rfl
    | exact Nat.le_refl _
    | rw [(l3Insert_parts _ _ _ _).1]
    | (refine le_trans ?_ ((l3Insert_parts _ _ _ _).2.2)
       exact Nat.le_refl _)

theorem l2Insert_clean (h : CacheHierarchy) (t v : Nat)
    (hmiss : h.l2Cache.sac.findWay (h.l2Cache.GetSetIndex t) t = none)
    (hrow : 0 < (h.l2Cache.sac.sets.getD (h.l2Cache.GetSetIndex t) []).length)
    (hsi : h.l2Cache.GetSetIndex t < h.l2Cache.sac.sets.length) :
    (h.l2Insert t v false).l2Cache.linePresent t = true ∧
    (h.l2Insert t v false).l2Cache.lineDirty t = false := by
  have hdc := dc_insert_clean h.l2Cache t v false hmiss hrow hsi
  unfold CacheHierarchy.l2Insert
  cases hev : (h.l2Cache.Insert t v false).2 with
  | none =>
      simp only [hev]
      exact hdc
  | some p =>
      obtain ⟨etag, evalue⟩ := p
      simp only [hev]
      have hl3 := l3Insert_parts
        { h with l2Cache := { (h.l2Cache.Insert t v false).1 with
            writebacks := (h.l2Cache.Insert t v false).1.writebacks + 1 } }
        etag evalue true
      rw [hl3.2.1]
      unfold DataCache.linePresent DataCache.lineDirty DataCache.GetSetIndex at hdc ⊢
      simpa using hdc

theorem l2miss_insert_clean (d : DataCache) (t v : Nat) (h2 : CacheHierarchy)
    (hwf : d.sac.wfb = true) (hns : 0 < d.sac.numSets)
    (hr : (d.Lookup t false).1 = none)
    (hd : h2.l2Cache = (d.Lookup t false).2) :
    (h2.l2Insert t v false).l2Cache.linePresent t = true ∧
    (h2.l2Insert t v false).l2Cache.lineDirty t = false := by
  have hlm := dc_lookup_miss d t false hr
  have hb := wfb_bounds d.sac hwf hns t
  have hgs : (d.Lookup t false).2.GetSetIndex t = d.GetSetIndex t := by
    unfold DataCache.GetSetIndex
    rw [hlm.2.1]
  apply l2Insert_clean
  · rw [hd, hgs]
    rw [findWay_congr _ d.sac _ _ hlm.1]
    exact hlm.2.2
  · rw [hd, hgs, hlm.1]
    exact hb.2
  · rw [hd, hgs, hlm.1]
    exact hb.1

/-- C3: `CacheHierarchy::TranslateLookup(paddr)` never touches L1; it always
bumps the L2 translation-access counter; on an L2 hit it returns true leaving
L3 and main memory untouched; on an L2 miss it bumps the L3 translation-access
counter, leaves the requested line present and clean in L2, returns true on an
L3 hit and false with at least one main-memory access on an L3 miss; and the
insertion operation it uses installs lines clean (`isWrite = false`). -/
theorem c3_main (h : CacheHierarchy) (paddr value : Nat)
    (ts : TranslationStats)
    (hwf : h.l2Cache.sac.wfb = true)
    (hns : 0 < h.l2Cache.sac.numSets) :
    ((h.TranslateLookup paddr value ts).2.2.1.l1Cache = h.l1Cache)
    ∧ ((h.TranslateLookup paddr value ts).2.2.2.l2DataCacheAccess
        = ts.l2DataCacheAccess + 1)
    ∧ ((h.l2Cache.Lookup (paddr >>> h.l2Cache.offsetBits) false).1.isSome = true →
        (h.TranslateLookup paddr value ts).1 = true
        ∧ (h.TranslateLookup paddr value ts).2.2.1.l3Cache = h.l3Cache
        ∧ (h.TranslateLookup paddr value ts).2.2.1.memAccessCount = h.memAccessCount
        ∧ (h.TranslateLookup paddr value ts).2.2.2.l3DataCacheAccess
            = ts.l3DataCacheAccess)
    ∧ ((h.l2Cache.Lookup (paddr >>> h.l2Cache.offsetBits) false).1 = none →
        ((h.TranslateLookup paddr value ts).2.2.2.l3DataCacheAccess
            = ts.l3DataCacheAccess + 1)
        ∧ (h.TranslateLookup paddr value ts).2.2.1.l2Cache.linePresent
            (paddr >>> h.l2Cache.offsetBits) = true
        ∧ (h.TranslateLookup paddr value ts).2.2.1.l2Cache.lineDirty
            (paddr >>> h.l2Cache.offsetBits) = false
        ∧ ((h.l3Cache.Lookup (paddr >>> h.l3Cache.offsetBits) false).1.isSome = true →
            (h.TranslateLookup paddr value ts).1 = true)
        ∧ ((h.l3Cache.Lookup (paddr >>> h.l3Cache.offsetBits) false).1 = none →
            (h.TranslateLookup paddr value ts).1 = false
            ∧ h.memAccessCount + 1
                ≤ (h.TranslateLookup paddr value ts).2.2.1.memAccessCount))
    ∧ (∀ (d : DataCache) (tg vv : Nat),
        d.sac.wfb = true → 0 < d.sac.numSets →
        d.sac.findWay (d.GetSetIndex tg) tg = none →
        (d.Insert tg vv false).1.linePresent tg = true
        ∧ (d.Insert tg vv false).1.lineDirty tg = false) := by
  have hgen : ∀ (d : DataCache) (tg vv : Nat),
      d.sac.wfb = true → 0 < d.sac.numSets →
      d.sac.findWay (d.GetSetIndex tg) tg = none →
      (d.Insert tg vv false).1.linePresent tg = true
      ∧ (d.Insert tg vv false).1.lineDirty tg = false := by
    intro d tg vv hw hn hm
    exact dc_insert_clean d tg vv false hm (wfb_bounds d.sac hw hn tg).2
      (wfb_bounds d.sac hw hn tg).1
  unfold CacheHierarchy.TranslateLookup
  cases hc2 : (h.l2Cache.Lookup (paddr >>> h.l2Cache.offsetBits) false).1 with
  | some v =>
      simp [hc2]
      exact hgen
  | none =>
      simp [hc2]
      cases hc3 : (h.l3Cache.Lookup (paddr >>> h.l3Cache.offsetBits) false).1 with
      | some w =>
          simp [hc3]
          refine ⟨(l2Insert_parts _ _ _ _).1, ⟨?_, ?_⟩, hgen⟩
          · exact (l2miss_insert_clean h.l2Cache (paddr >>> h.l2Cache.offsetBits)
              w _ hwf hns hc2 rfl).1
          · exact (l2miss_insert_clean h.l2Cache (paddr >>> h.l2Cache.offsetBits)
              w _ hwf hns hc2 rfl).2
      | none =>
          simp [hc3]
          have hmc := l2miss_insert_clean h.l2Cache (paddr >>> h.l2Cache.offsetBits)
            value
            (CacheHierarchy.l3Insert
              { l1Cache := h.l1Cache,
                l2Cache := (h.l2Cache.Lookup (paddr >>> h.l2Cache.offsetBits) false).2,
                l3Cache := (h.l3Cache.Lookup (paddr >>> h.l3Cache.offsetBits) false).2,
                memAccessCount := h.memAccessCount + 1 }
              (paddr >>> h.l3Cache.offsetBits) value false)
            hwf hns hc2 ((l3Insert_parts _ _ _ _).2.1)
          refine ⟨?_, ⟨hmc.1, hmc.2, ?_⟩, hgen⟩
          · rw [(l2Insert_parts _ _ _ _).1, (l3Insert_parts _ _ _ _).1]
          · refine le_trans ?_ ((l2Insert_parts _ _ _ _).2)
            refine le_trans ?_ ((l3Insert_parts _ _ _ _).2.2)
            exact Nat.le_refl _

/-- Witness for `c3_main` at the default hierarchy. -/
theorem c3_main_witness :
    defaultHier.l2Cache.sac.wfb = true ∧ 0 < defaultHier.l2Cache.sac.numSets ∧
    (defaultHier.TranslateLookup 4096 0 TranslationStats.init).2.2.1.l1Cache
      = defaultHier.l1Cache :=
  ⟨by decide, by decide,
   (c3_main defaultHier 4096 0 TranslationStats.init (by decide) (by decide)).1⟩

theorem findWayAux_ge (tag : Nat) (row : List CacheEntry) (k w0 : Nat)
    (hf : SetAssociativeCache.findWayAux tag row k = some w0) : k ≤ w0 := by
  induction row generalizing k with
  | nil => simp [SetAssociativeCache.findWayAux] at hf
  | cons a rest ih =>
      unfold SetAssociativeCache.findWayAux at hf
      by_cases hm : (a.valid && a.tag == tag) = true
      · rw [if_pos hm] at hf
        simp at hf
        omega
      · rw [if_neg hm] at hf
        have := ih (k + 1) hf
        omega

theorem findWayAux_spec (tag : Nat) (row : List CacheEntry) (k w0 : Nat)
    (hf : SetAssociativeCache.findWayAux tag row k = some w0) :
    w0 - k < row.length ∧
    (row.getD (w0 - k) CacheEntry.init).valid = true ∧
    (row.getD (w0 - k) CacheEntry.init).tag = tag := by
  induction row generalizing k with
  | nil => simp [SetAssociativeCache.findWayAux] at hf
  | cons a rest ih =>
      unfold SetAssociativeCache.findWayAux at hf
      by_cases hm : (a.valid && a.tag == tag) = true
      · rw [if_pos hm] at hf
        simp at hf
        subst hf
        simp at hm
        simp [hm.1, hm.2]
      · rw [if_neg hm] at hf
        have hge := findWayAux_ge tag rest (k + 1) w0 hf
        have := ih (k + 1) hf
        have hw : w0 - k = (w0 - (k + 1)) + 1 := by omega
        rw [hw]
        simp only [List.length_cons, List.getD_cons_succ]
        refine ⟨by omega, this.2.1, this.2.2⟩

theorem findWayAux_set_found (tag : Nat) (row : List CacheEntry) (k w0 : Nat)
    (e2 : CacheEntry)
    (hf : SetAssociativeCache.findWayAux tag row k = some (k + w0))
    (hv : e2.valid = true) (ht : e2.tag = tag) :
    SetAssociativeCache.findWayAux tag (row.set w0 e2) k = some (k + w0) := by
  induction row generalizing k w0 with
  | nil => simp [SetAssociativeCache.findWayAux] at hf
  | cons a rest ih =>
      unfold SetAssociativeCache.findWayAux at hf
      by_cases hm : (a.valid && a.tag == tag) = true
      · rw [if_pos hm] at hf
        simp at hf
        have hw0 : w0 = 0 := by omega
        subst hw0
        simp only [List.set]
        unfold SetAssociativeCache.findWayAux
        simp [hv, ht]
      · rw [if_neg hm] at hf
        have hge := findWayAux_ge tag rest (k + 1) (k + w0) hf
        have hw0 : 0 < w0 := by omega
        cases w0 with
        | zero => omega
        | succ w1 =>
            simp only [List.set]
            unfold SetAssociativeCache.findWayAux
            rw [if_neg hm]
            have hf2 : SetAssociativeCache.findWayAux tag rest (k + 1)
                = some ((k + 1) + w1) := by
              rw [hf]
              congr 1
              omega
            have := ih (k + 1) w1 hf2
            rw [this]
            congr 1
            omega

theorem insert_hit (c : SetAssociativeCache) (si tag value : Nat) (w : Bool)
    (w0 : Nat) (hf : c.findWay si tag = some w0) (hsi : si < c.sets.length) :
    (c.Insert si tag value w).1.findWay si tag = some w0 ∧
    ((c.Insert si tag value w).1.getEntry si w0).dirty
      = ((c.getEntry si w0).dirty || w) := by
  have hspec := findWayAux_spec tag (c.sets.getD si []) 0 w0 hf
  have hw0 : w0 < (c.sets.getD si []).length := by simpa using hspec.1
  have hgd0 : c.sets.getD si [] = c.sets[si] := by
    simp [List.getD, List.getElem?_eq_getElem hsi]
  have hw2 : w0 < (c.sets[si]).length := by rwa [hgd0] at hw0
  have hvalid : (c.getEntry si w0).valid = true := by
    have h := hspec.2.1
    simpa [SetAssociativeCache.getEntry] using h
  have htag : (c.getEntry si w0).tag = tag := by
    have h := hspec.2.2
    simpa [SetAssociativeCache.getEntry] using h
  have hIns : (c.Insert si tag value w).1.sets
      = c.sets.set si ((c.sets.getD si []).set w0
          { tag := (c.getEntry si w0).tag, value := value,
            valid := (c.getEntry si w0).valid,
            dirty := (c.getEntry si w0).dirty || w,
            lruCounter := c.globalLruCounter + 1 }) := by
    unfold SetAssociativeCache.Insert
    rw [hf]
    unfold SetAssociativeCache.updateLru SetAssociativeCache.setEntry
      SetAssociativeCache.getEntry
    simp [List.getD, List.getElem?_set, hsi, hw2, List.set_set]
  constructor
  · unfold SetAssociativeCache.findWay
    rw [hIns]
    have hgd : ((c.sets.set si ((c.sets.getD si []).set w0
          { tag := (c.getEntry si w0).tag, value := value,
            valid := (c.getEntry si w0).valid,
            dirty := (c.getEntry si w0).dirty || w,
            lruCounter := c.globalLruCounter + 1 })).getD si [])
        = (c.sets.getD si []).set w0
          { tag := (c.getEntry si w0).tag, value := value,
            valid := (c.getEntry si w0).valid,
            dirty := (c.getEntry si w0).dirty || w,
            lruCounter := c.globalLruCounter + 1 } := by
      simp [List.getD, List.getElem?_set, hsi]
    rw [hgd]
    have hf0 : SetAssociativeCache.findWayAux tag (c.sets.getD si []) 0
        = some (0 + w0) := by simpa [SetAssociativeCache.findWay] using hf
    have hres := findWayAux_set_found tag (c.sets.getD si []) 0 w0
      { tag := (c.getEntry si w0).tag, value := value,
        valid := (c.getEntry si w0).valid,
        dirty := (c.getEntry si w0).dirty || w,
        lruCounter := c.globalLruCounter + 1 } hf0 hvalid htag
    simpa using hres
  · unfold SetAssociativeCache.getEntry
    rw [hIns]
    simp [SetAssociativeCache.getEntry, List.getD, List.getElem?_set, hsi,
      hw0, hw2]

theorem setEntry_wfb (c : SetAssociativeCache) (si wi : Nat) (e : CacheEntry)
    (hwf : c.wfb = true) : (c.setEntry si wi e).wfb = true := by
  unfold SetAssociativeCache.wfb SetAssociativeCache.setEntry at *
  simp [List.all_eq_true] at hwf ⊢
  obtain ⟨⟨hlen, hrows⟩, hways⟩ := hwf
  refine ⟨⟨by simp [hlen], ?_⟩, hways⟩
  intro r hr
  by_cases hs : si < c.sets.length
  · rcases List.mem_or_eq_of_mem_set hr with h | h
    · exact hrows r h
    · subst h
      rw [List.length_set]
      have hgd : c.sets[si]?.getD [] = c.sets[si] := by
        simp [List.getElem?_eq_getElem hs]
      rw [hgd]
      exact hrows _ (List.getElem_mem hs)
  · rw [List.set_eq_of_length_le (by omega)] at hr
    exact hrows r hr

theorem sac_lookup_wfb (c : SetAssociativeCache) (si t : Nat)
    (hwf : c.wfb = true) :
    ((c.Lookup si t).2).wfb = true ∧ ((c.Lookup si t).2).numSets = c.numSets := by
  unfold SetAssociativeCache.Lookup
  simp only []
  cases hf : ({ c with accesses := c.accesses + 1 }
      : SetAssociativeCache).findWay si t with
  | none => exact ⟨hwf, rfl⟩
  | some w =>
      have hupd : (({ c with accesses := c.accesses + 1 }
          : SetAssociativeCache).updateLru si w).wfb = true := by
        unfold SetAssociativeCache.updateLru
        exact setEntry_wfb _ si w _ hwf
      exact ⟨hupd, rfl⟩

theorem sac_insert_wfb (c : SetAssociativeCache) (si t v : Nat) (w : Bool)
    (hwf : c.wfb = true) :
    ((c.Insert si t v w).1).wfb = true ∧
    ((c.Insert si t v w).1).numSets = c.numSets := by
  unfold SetAssociativeCache.Insert
  simp only []
  cases hf : c.findWay si t with
  | some w0 =>
      refine ⟨?_, rfl⟩
      unfold SetAssociativeCache.updateLru
      exact setEntry_wfb _ _ _ _ (setEntry_wfb _ _ _ _ hwf)
  | none =>
      refine ⟨?_, rfl⟩
      unfold SetAssociativeCache.updateLru
      exact setEntry_wfb _ _ _ _ (setEntry_wfb _ _ _ _ hwf)

theorem dc_insert_wfb (d : DataCache) (t v : Nat) (w : Bool)
    (hwf : d.sac.wfb = true) :
    (d.Insert t v w).1.sac.wfb = true ∧
    (d.Insert t v w).1.sac.numSets = d.sac.numSets :=
  ⟨(sac_insert_wfb _ _ _ _ _ hwf).1, (sac_insert_wfb _ _ _ _ _ hwf).2⟩

theorem dc_lookup_wfb (d : DataCache) (t : Nat) (w : Bool)
    (hwf : d.sac.wfb = true) :
    (d.Lookup t w).2.sac.wfb = true ∧
    (d.Lookup t w).2.sac.numSets = d.sac.numSets := by
  have hs := sac_lookup_wfb d.sac (d.GetSetIndex t) t hwf
  unfold DataCache.Lookup
  simp only []
  cases hlk : d.sac.Lookup (d.GetSetIndex t) t with
  | mk r c =>
      rw [hlk] at hs
      repeat' split
      all_goals exact hs

theorem l2Insert_l2wfb (h : CacheHierarchy) (t v : Nat) (w : Bool)
    (hwf : h.l2Cache.sac.wfb = true) :
    (h.l2Insert t v w).l2Cache.sac.wfb = true ∧
    (h.l2Insert t v w).l2Cache.sac.numSets = h.l2Cache.sac.numSets := by
  have hs := dc_insert_wfb h.l2Cache t v w hwf
  unfold CacheHierarchy.l2Insert
  simp only []
  cases hins : h.l2Cache.Insert t v w with
  | mk c ev =>
      rw [hins] at hs
      cases ev with
      | none => exact hs
      | some p =>
          obtain ⟨etag, evalue⟩ := p
          show ((({ h with l2Cache := { c with writebacks := c.writebacks + 1 } }
              : CacheHierarchy).l3Insert etag evalue true).l2Cache.sac.wfb = true)
            ∧ ((({ h with l2Cache := { c with writebacks := c.writebacks + 1 } }
              : CacheHierarchy).l3Insert etag evalue true).l2Cache.sac.numSets
                = h.l2Cache.sac.numSets)
          rw [(l3Insert_parts _ _ _ _).2.1]
          exact hs

theorem l1Insert_l2wfb (h : CacheHierarchy) (t v : Nat) (w : Bool)
    (hwf : h.l2Cache.sac.wfb = true) :
    (h.l1Insert t v w).l2Cache.sac.wfb = true ∧
    (h.l1Insert t v w).l2Cache.sac.numSets = h.l2Cache.sac.numSets := by
  unfold CacheHierarchy.l1Insert
  simp only []
  cases hins : h.l1Cache.Insert t v w with
  | mk c ev =>
      cases ev with
      | none => exact ⟨hwf, rfl⟩
      | some p =>
          obtain ⟨etag, evalue⟩ := p
          show ((({ h with l1Cache := { c with writebacks := c.writebacks + 1 } }
              : CacheHierarchy).l2Insert etag evalue true).l2Cache.sac.wfb = true)
            ∧ ((({ h with l1Cache := { c with writebacks := c.writebacks + 1 } }
              : CacheHierarchy).l2Insert etag evalue true).l2Cache.sac.numSets
                = h.l2Cache.sac.numSets)
          exact ⟨(l2Insert_l2wfb
              { h with l1Cache := { c with writebacks := c.writebacks + 1 } }
              etag evalue true hwf).1,
            (l2Insert_l2wfb
              { h with l1Cache := { c with writebacks := c.writebacks + 1 } }
              etag evalue true hwf).2⟩

theorem l2Insert_line_eq (h : CacheHierarchy) (t v : Nat) (w : Bool) :
    (h.l2Insert t v w).l2Cache.linePresent t
      = (h.l2Cache.Insert t v w).1.linePresent t ∧
    (h.l2Insert t v w).l2Cache.lineDirty t
      = (h.l2Cache.Insert t v w).1.lineDirty t := by
  unfold CacheHierarchy.l2Insert
  simp only []
  cases hins : h.l2Cache.Insert t v w with
  | mk c ev =>
      cases ev with
      | none => exact ⟨rfl, rfl⟩
      | some p =>
          obtain ⟨etag, evalue⟩ := p
          show ((({ h with l2Cache := { c with writebacks := c.writebacks + 1 } }
              : CacheHierarchy).l3Insert etag evalue true).l2Cache.linePresent t
                = (c, some (etag, evalue)).1.linePresent t)
            ∧ ((({ h with l2Cache := { c with writebacks := c.writebacks + 1 } }
              : CacheHierarchy).l3Insert etag evalue true).l2Cache.lineDirty t
                = (c, some (etag, evalue)).1.lineDirty t)
          rw [(l3Insert_parts _ _ _ _).2.1]
          unfold DataCache.linePresent DataCache.lineDirty DataCache.GetSetIndex
          exact ⟨rfl, rfl⟩

theorem dc_insert_write_dirty (d : DataCache) (t v : Nat)
    (hwf : d.sac.wfb = true) (hns : 0 < d.sac.numSets) :
    (d.Insert t v true).1.linePresent t = true ∧
    (d.Insert t v true).1.lineDirty t = true := by
  have hb := wfb_bounds d.sac hwf hns t
  cases hfw : d.sac.findWay (d.GetSetIndex t) t with
  | none => exact dc_insert_clean d t v true hfw hb.2 hb.1
  | some w0 =>
      have hins := insert_hit d.sac (d.GetSetIndex t) t v true w0 hfw hb.1
      rw [dc_insert_view]
      have hidx : ({ d with sac := (d.sac.Insert (d.GetSetIndex t) t v true).1
                   } : DataCache).GetSetIndex t = d.GetSetIndex t := by
        unfold DataCache.GetSetIndex
        rw [sac_insert_numSets]
      constructor
      · unfold DataCache.linePresent
        rw [hidx, hins.1]
        rfl
      · unfold DataCache.lineDirty
        rw [hidx, hins.1]
        simp [hins.2]

theorem l2Insert_write_line (H : CacheHierarchy) (t v : Nat)
    (hwf : H.l2Cache.sac.wfb = true) (hns : 0 < H.l2Cache.sac.numSets) :
    ((H.l2Insert t v true).l2Cache.linePresent t &&
     (H.l2Insert t v true).l2Cache.lineDirty t) = true := by
  have h1 := l2Insert_line_eq H t v true
  have h2 := dc_insert_write_dirty H.l2Cache t v hwf hns
  rw [h1.1, h1.2, h2.1, h2.2]
  rfl

theorem dc_lookup_pos (d : DataCache) (t : Nat) (w : Bool)
    (hwf : d.sac.wfb = true) (hns : 0 < d.sac.numSets) :
    0 < (d.Lookup t w).2.sac.numSets := by
  rw [(dc_lookup_wfb d t w hwf).2]
  exact hns

theorem l1Insert_l2pos (h : CacheHierarchy) (t v : Nat) (w : Bool)
    (hwf : h.l2Cache.sac.wfb = true) (hns : 0 < h.l2Cache.sac.numSets) :
    0 < (h.l1Insert t v w).l2Cache.sac.numSets := by
  rw [(l1Insert_l2wfb h t v w hwf).2]
  exact hns

/-- C4 (restricted): when L1 and L2 use the same line size, a write access
that misses L1 and hits L2 leaves the L2 entry tagged
`paddr >> l2.offsetBits` present and dirty. -/
theorem c4_write_l2_hit_dirty (h : CacheHierarchy) (paddr value : Nat)
    (heq : h.l1Cache.offsetBits = h.l2Cache.offsetBits)
    (hwf : h.l2Cache.sac.wfb = true)
    (hns : 0 < h.l2Cache.sac.numSets)
    (hm1 : (h.l1Cache.Lookup (paddr >>> h.l1Cache.offsetBits) true).1 = none)
    (hh2 : (h.l2Cache.Lookup (paddr >>> h.l2Cache.offsetBits) true).1.isSome
        = true) :
    (h.Access paddr value true).all (fun r =>
      r.2.2.l2Cache.linePresent (paddr >>> h.l2Cache.offsetBits) &&
      r.2.2.l2Cache.lineDirty (paddr >>> h.l2Cache.offsetBits)) = true := by
  unfold CacheHierarchy.Access
  simp [hm1]
  cases hc2 : (h.l2Cache.Lookup (paddr >>> h.l2Cache.offsetBits) true).1 with
  | none =>
      rw [hc2] at hh2
      simp at hh2
  | some v =>
      simp only [Option.all_some]
      rw [heq]
      apply l2Insert_write_line
      · refine (l1Insert_l2wfb _ _ _ _ ?_).1
        exact (dc_lookup_wfb h.l2Cache (paddr >>> h.l2Cache.offsetBits)
          true hwf).1
      · apply l1Insert_l2pos
        · exact (dc_lookup_wfb h.l2Cache (paddr >>> h.l2Cache.offsetBits)
            true hwf).1
        · exact dc_lookup_pos h.l2Cache (paddr >>> h.l2Cache.offsetBits)
            true hwf hns

/-- C4: the claim fails on the code as written.  With a 32-byte L1 line and
a 64-byte L2 line, a write to 0x1000 that misses L1 and hits L2 leaves the
L2 entry tagged `0x1000 >> 6` present but CLEAN: the write path calls
`l2Cache_.Insert(l1CacheTag, value, isWrite)` with L1's tag
(`0x1000 >> 5`), so the dirty bit lands on a different entry. -/
theorem c4_counterexample : c4Obs = some (false, true, true, false) := by
  rfl

/-- Witness for `c4_write_l2_hit_dirty` on the equal-line-size scenario. -/
theorem c4_write_l2_hit_dirty_witness :
    (c4MidEq.l1Cache.offsetBits = c4MidEq.l2Cache.offsetBits
     ∧ c4MidEq.l2Cache.sac.wfb = true
     ∧ 0 < c4MidEq.l2Cache.sac.numSets
     ∧ (c4MidEq.l1Cache.Lookup (4096 >>> c4MidEq.l1Cache.offsetBits) true).1
         = none
     ∧ (c4MidEq.l2Cache.Lookup (4096 >>> c4MidEq.l2Cache.offsetBits) true).1.isSome
         = true)
    ∧ (c4MidEq.Access 4096 3 true).all (fun r =>
        r.2.2.l2Cache.linePresent (4096 >>> c4MidEq.l2Cache.offsetBits) &&
        r.2.2.l2Cache.lineDirty (4096 >>> c4MidEq.l2Cache.offsetBits)) = true :=
  ⟨⟨by decide, by decide, by decide, by decide, by decide⟩,
   c4_write_l2_hit_dirty c4MidEq 4096 3 (by decide) (by decide) (by decide)
     (by decide) (by decide)⟩

theorem dc_insert_wb (d : DataCache) (t v : Nat) (w : Bool) :
    (d.Insert t v w).1.writebacks = d.writebacks := rfl

theorem dc_lookup_wb (d : DataCache) (t : Nat) (w : Bool) :
    (d.Lookup t w).2.writebacks = d.writebacks := by
  unfold DataCache.Lookup
  simp only []
  cases hlk : d.sac.Lookup (d.GetSetIndex t) t with
  | mk r c =>
      repeat' split
      all_goals rfl

theorem wbmem_l3eq (h : CacheHierarchy) (t v : Nat) (w : Bool) :
    (h.l3Insert t v w).l3Cache.writebacks + h.memAccessCount
      = h.l3Cache.writebacks + (h.l3Insert t v w).memAccessCount := by
  have hwb := dc_insert_wb h.l3Cache t v w
  unfold CacheHierarchy.l3Insert
  simp only []
  cases hins : h.l3Cache.Insert t v w with
  | mk c ev =>
      rw [hins] at hwb
      cases ev with
      | none => simp at hwb ⊢; omega
      | some p => simp at hwb ⊢; omega

theorem wbmem_l2eq (h : CacheHierarchy) (t v : Nat) (w : Bool) :
    (h.l2Insert t v w).l3Cache.writebacks + h.memAccessCount
      = h.l3Cache.writebacks + (h.l2Insert t v w).memAccessCount := by
  unfold CacheHierarchy.l2Insert
  simp only []
  cases hins : h.l2Cache.Insert t v w with
  | mk c ev =>
      cases ev with
      | none => rfl
      | some p =>
          obtain ⟨etag, evalue⟩ := p
          exact wbmem_l3eq
            { h with l2Cache := { c with writebacks := c.writebacks + 1 } }
            etag evalue true

theorem wbmem_l1eq (h : CacheHierarchy) (t v : Nat) (w : Bool) :
    (h.l1Insert t v w).l3Cache.writebacks + h.memAccessCount
      = h.l3Cache.writebacks + (h.l1Insert t v w).memAccessCount := by
  unfold CacheHierarchy.l1Insert
  simp only []
  cases hins : h.l1Cache.Insert t v w with
  | mk c ev =>
      cases ev with
      | none => rfl
      | some p =>
          obtain ⟨etag, evalue⟩ := p
          exact wbmem_l2eq
            { h with l1Cache := { c with writebacks := c.writebacks + 1 } }
            etag evalue true

theorem wbmem_l1_l2_le (H : CacheHierarchy) (a b d e : Nat)
    (c w : Bool) :
    ((H.l1Insert a b c).l2Insert d e w).l3Cache.writebacks + H.memAccessCount
      ≤ H.l3Cache.writebacks
        + ((H.l1Insert a b c).l2Insert d e w).memAccessCount := by
  have h1 := wbmem_l1eq H a b c
  have h2 := wbmem_l2eq (H.l1Insert a b c) d e w
  omega

theorem wbmem_l2_l1_le (H : CacheHierarchy) (a b d e : Nat) (c w : Bool) :
    ((H.l2Insert a b c).l1Insert d e w).l3Cache.writebacks + H.memAccessCount
      ≤ H.l3Cache.writebacks
        + ((H.l2Insert a b c).l1Insert d e w).memAccessCount := by
  have h1 := wbmem_l2eq H a b c
  have h2 := wbmem_l1eq (H.l2Insert a b c) d e w
  omega

theorem wbmem_l3_l2_l1_le (H : CacheHierarchy) (a b d e g i : Nat)
    (c w2 w1 : Bool) :
    (((H.l3Insert a b c).l2Insert d e w2).l1Insert g i w1).l3Cache.writebacks
        + H.memAccessCount
      ≤ H.l3Cache.writebacks
        + (((H.l3Insert a b c).l2Insert d e w2).l1Insert g i w1).memAccessCount := by
  have h1 := wbmem_l3eq H a b c
  have h2 := wbmem_l2eq (H.l3Insert a b c) d e w2
  have h3 := wbmem_l1eq ((H.l3Insert a b c).l2Insert d e w2) g i w1
  omega

theorem wbmem_l3_l2_le (H : CacheHierarchy) (a b d e : Nat) (c w2 : Bool) :
    ((H.l3Insert a b c).l2Insert d e w2).l3Cache.writebacks + H.memAccessCount
      ≤ H.l3Cache.writebacks
        + ((H.l3Insert a b c).l2Insert d e w2).memAccessCount := by
  have h1 := wbmem_l3eq H a b c
  have h2 := wbmem_l2eq (H.l3Insert a b c) d e w2
  omega

theorem l3Insert_line_eq (h : CacheHierarchy) (t v : Nat) (w : Bool) :
    (h.l3Insert t v w).l3Cache.linePresent t
      = (h.l3Cache.Insert t v w).1.linePresent t ∧
    (h.l3Insert t v w).l3Cache.lineDirty t
      = (h.l3Cache.Insert t v w).1.lineDirty t := by
  unfold CacheHierarchy.l3Insert
  simp only []
  cases hins : h.l3Cache.Insert t v w with
  | mk c ev =>
      cases ev with
      | none => exact ⟨rfl, rfl⟩
      | some p =>
          unfold DataCache.linePresent DataCache.lineDirty DataCache.GetSetIndex
          exact ⟨rfl, rfl⟩

theorem l1Insert_wb_pairing (h : CacheHierarchy) (t v : Nat) (w : Bool)
    (hwf2 : h.l2Cache.sac.wfb = true) (hns2 : 0 < h.l2Cache.sac.numSets) :
    ((h.l1Insert t v w).l1Cache.writebacks = h.l1Cache.writebacks
      ∧ (h.l1Insert t v w).l2Cache = h.l2Cache)
    ∨ ((h.l1Insert t v w).l1Cache.writebacks = h.l1Cache.writebacks + 1
      ∧ ∃ etag evalue, (h.l1Cache.Insert t v w).2 = some (etag, evalue)
        ∧ (h.l1Insert t v w).l2Cache.linePresent etag = true
        ∧ (h.l1Insert t v w).l2Cache.lineDirty etag = true) := by
  have hwb := dc_insert_wb h.l1Cache t v w
  unfold CacheHierarchy.l1Insert
  simp only []
  cases hins : h.l1Cache.Insert t v w with
  | mk c ev =>
      rw [hins] at hwb
      simp at hwb
      cases ev with
      | none =>
          left
          exact ⟨hwb, rfl⟩
      | some p =>
          obtain ⟨etag, evalue⟩ := p
          right
          refine ⟨?_, etag, evalue, rfl, ?_, ?_⟩
          · rw [(l2Insert_parts _ _ _ _).1]
            simp [hwb]
          · have h1 := l2Insert_line_eq
              { h with l1Cache := { c with writebacks := c.writebacks + 1 } }
              etag evalue true
            rw [h1.1]
            exact (dc_insert_write_dirty h.l2Cache etag evalue hwf2 hns2).1
          · have h1 := l2Insert_line_eq
              { h with l1Cache := { c with writebacks := c.writebacks + 1 } }
              etag evalue true
            rw [h1.2]
            exact (dc_insert_write_dirty h.l2Cache etag evalue hwf2 hns2).2

theorem l2Insert_wb_pairing (h : CacheHierarchy) (t v : Nat) (w : Bool)
    (hwf3 : h.l3Cache.sac.wfb = true) (hns3 : 0 < h.l3Cache.sac.numSets) :
    ((h.l2Insert t v w).l2Cache.writebacks = h.l2Cache.writebacks
      ∧ (h.l2Insert t v w).l3Cache = h.l3Cache
      ∧ (h.l2Insert t v w).memAccessCount = h.memAccessCount)
    ∨ ((h.l2Insert t v w).l2Cache.writebacks = h.l2Cache.writebacks + 1
      ∧ ∃ etag evalue, (h.l2Cache.Insert t v w).2 = some (etag, evalue)
        ∧ (h.l2Insert t v w).l3Cache.linePresent etag = true
        ∧ (h.l2Insert t v w).l3Cache.lineDirty etag = true) := by
  have hwb := dc_insert_wb h.l2Cache t v w
  unfold CacheHierarchy.l2Insert
  simp only []
  cases hins : h.l2Cache.Insert t v w with
  | mk c ev =>
      rw [hins] at hwb
      simp at hwb
      cases ev with
      | none =>
          left
          exact ⟨hwb, rfl, rfl⟩
      | some p =>
          obtain ⟨etag, evalue⟩ := p
          right
          refine ⟨?_, etag, evalue, rfl, ?_, ?_⟩
          · have h2 := (l3Insert_parts
              { h with l2Cache := { c with writebacks := c.writebacks + 1 } }
              etag evalue true).2.1
            rw [h2]
            simp [hwb]
          · have h1 := l3Insert_line_eq
              { h with l2Cache := { c with writebacks := c.writebacks + 1 } }
              etag evalue true
            rw [h1.1]
            exact (dc_insert_write_dirty h.l3Cache etag evalue hwf3 hns3).1
          · have h1 := l3Insert_line_eq
              { h with l2Cache := { c with writebacks := c.writebacks + 1 } }
              etag evalue true
            rw [h1.2]
            exact (dc_insert_write_dirty h.l3Cache etag evalue hwf3 hns3).2

theorem access_wbmem_le (h : CacheHierarchy) (paddr value : Nat) (iw : Bool) :
    (h.Access paddr value iw).all (fun r =>
      decide (r.2.2.l3Cache.writebacks + h.memAccessCount
        ≤ h.l3Cache.writebacks + r.2.2.memAccessCount)) = true := by
  have ewb3 := dc_lookup_wb h.l3Cache (paddr >>> h.l3Cache.offsetBits) iw
  unfold CacheHierarchy.Access
  simp only []
  cases hc1 : (h.l1Cache.Lookup (paddr >>> h.l1Cache.offsetBits) iw).1 with
  | some v =>
      simp [hc1]
      cases iw with
      | true =>
          have e := wbmem_l1eq
            { h with l1Cache := (h.l1Cache.Lookup (paddr >>> h.l1Cache.offsetBits) true).2 }
            (paddr >>> h.l1Cache.offsetBits) v true
          simp at e
          simp
          omega
      | false => simp
  | none =>
      simp [hc1]
      cases hc2 : (h.l2Cache.Lookup (paddr >>> h.l2Cache.offsetBits) iw).1 with
      | some v =>
          simp [hc2]
          cases iw with
          | true =>
              have e1 := wbmem_l1eq
                { h with
                  l1Cache := (h.l1Cache.Lookup (paddr >>> h.l1Cache.offsetBits) true).2,
                  l2Cache := (h.l2Cache.Lookup (paddr >>> h.l2Cache.offsetBits) true).2 }
                (paddr >>> h.l1Cache.offsetBits) v true
              have e2 := wbmem_l2eq
                (({ h with
                      l1Cache := (h.l1Cache.Lookup (paddr >>> h.l1Cache.offsetBits) true).2,
                      l2Cache := (h.l2Cache.Lookup (paddr >>> h.l2Cache.offsetBits) true).2
                    } : CacheHierarchy).l1Insert (paddr >>> h.l1Cache.offsetBits) v true)
                (paddr >>> h.l1Cache.offsetBits) v true
              simp at e1 e2
              simp
              omega
          | false =>
              have e1 := wbmem_l1eq
                { h with
                  l1Cache := (h.l1Cache.Lookup (paddr >>> h.l1Cache.offsetBits) false).2,
                  l2Cache := (h.l2Cache.Lookup (paddr >>> h.l2Cache.offsetBits) false).2 }
                (paddr >>> h.l1Cache.offsetBits) v false
              simp at e1
              simp
              omega
      | none =>
          simp [hc2]
          cases hc3 : (h.l3Cache.Lookup (paddr >>> h.l3Cache.offsetBits) iw).1 with
          | some v =>
              simp [hc3]
              cases iw with
              | true =>
                  have ewb := dc_lookup_wb h.l3Cache (paddr >>> h.l3Cache.offsetBits) true
                  have e1 := wbmem_l3eq
                    { h with
                      l1Cache := (h.l1Cache.Lookup (paddr >>> h.l1Cache.offsetBits) true).2,
                      l2Cache := (h.l2Cache.Lookup (paddr >>> h.l2Cache.offsetBits) true).2,
                      l3Cache := (h.l3Cache.Lookup (paddr >>> h.l3Cache.offsetBits) true).2 }
                    (paddr >>> h.l1Cache.offsetBits) v true
                  have e2 := wbmem_l2eq
                    (({ h with
                          l1Cache := (h.l1Cache.Lookup (paddr >>> h.l1Cache.offsetBits) true).2,
                          l2Cache := (h.l2Cache.Lookup (paddr >>> h.l2Cache.offsetBits) true).2,
                          l3Cache := (h.l3Cache.Lookup (paddr >>> h.l3Cache.offsetBits) true).2
                        } : CacheHierarchy).l3Insert (paddr >>> h.l1Cache.offsetBits) v true)
                    (paddr >>> h.l2Cache.offsetBits) v false
                  have e3 := wbmem_l1eq
                    ((({ h with
                          l1Cache := (h.l1Cache.Lookup (paddr >>> h.l1Cache.offsetBits) true).2,
                          l2Cache := (h.l2Cache.Lookup (paddr >>> h.l2Cache.offsetBits) true).2,
                          l3Cache := (h.l3Cache.Lookup (paddr >>> h.l3Cache.offsetBits) true).2
                        } : CacheHierarchy).l3Insert (paddr >>> h.l1Cache.offsetBits) v true).l2Insert
                        (paddr >>> h.l2Cache.offsetBits) v false)
                    (paddr >>> h.l1Cache.offsetBits) v true
                  simp at e1 e2 e3
                  simp
                  omega
              | false =>
                  have ewb := dc_lookup_wb h.l3Cache (paddr >>> h.l3Cache.offsetBits) false
                  have e1 := wbmem_l2eq
                    { h with
                      l1Cache := (h.l1Cache.Lookup (paddr >>> h.l1Cache.offsetBits) false).2,
                      l2Cache := (h.l2Cache.Lookup (paddr >>> h.l2Cache.offsetBits) false).2,
                      l3Cache := (h.l3Cache.Lookup (paddr >>> h.l3Cache.offsetBits) false).2 }
                    (paddr >>> h.l2Cache.offsetBits) v false
                  have e2 := wbmem_l1eq
                    (({ h with
                          l1Cache := (h.l1Cache.Lookup (paddr >>> h.l1Cache.offsetBits) false).2,
                          l2Cache := (h.l2Cache.Lookup (paddr >>> h.l2Cache.offsetBits) false).2,
                          l3Cache := (h.l3Cache.Lookup (paddr >>> h.l3Cache.offsetBits) false).2
                        } : CacheHierarchy).l2Insert (paddr >>> h.l2Cache.offsetBits) v false)
                    (paddr >>> h.l1Cache.offsetBits) v false
                  simp at e1 e2
                  simp
                  omega
          | none =>
              simp [hc3]
              split
              · have e1 := wbmem_l3eq
                  { l1Cache := (h.l1Cache.Lookup (paddr >>> h.l1Cache.offsetBits) iw).2,
                    l2Cache := (h.l2Cache.Lookup (paddr >>> h.l2Cache.offsetBits) iw).2,
                    l3Cache := (h.l3Cache.Lookup (paddr >>> h.l3Cache.offsetBits) iw).2,
                    memAccessCount := h.memAccessCount + 1 }
                  (paddr >>> h.l3Cache.offsetBits) value false
                have e2 := wbmem_l2eq
                  (({ l1Cache := (h.l1Cache.Lookup (paddr >>> h.l1Cache.offsetBits) iw).2,
                        l2Cache := (h.l2Cache.Lookup (paddr >>> h.l2Cache.offsetBits) iw).2,
                        l3Cache := (h.l3Cache.Lookup (paddr >>> h.l3Cache.offsetBits) iw).2,
                        memAccessCount := h.memAccessCount + 1
                      } : CacheHierarchy).l3Insert (paddr >>> h.l3Cache.offsetBits) value false)
                  (paddr >>> h.l2Cache.offsetBits) value false
                have e3 := wbmem_l1eq
                  ((({ l1Cache := (h.l1Cache.Lookup (paddr >>> h.l1Cache.offsetBits) iw).2,
                        l2Cache := (h.l2Cache.Lookup (paddr >>> h.l2Cache.offsetBits) iw).2,
                        l3Cache := (h.l3Cache.Lookup (paddr >>> h.l3Cache.offsetBits) iw).2,
                        memAccessCount := h.memAccessCount + 1
                      } : CacheHierarchy).l3Insert (paddr >>> h.l3Cache.offsetBits) value false).l2Insert
                      (paddr >>> h.l2Cache.offsetBits) value false)
                  (paddr >>> h.l1Cache.offsetBits) value iw
                simp at e1 e2 e3
                simp
                omega
              · rfl

theorem translateLookup_wbmem_le (h : CacheHierarchy) (paddr value : Nat)
    (ts : TranslationStats) :
    (h.TranslateLookup paddr value ts).2.2.1.l3Cache.writebacks
        + h.memAccessCount
      ≤ h.l3Cache.writebacks
        + (h.TranslateLookup paddr value ts).2.2.1.memAccessCount := by
  unfold CacheHierarchy.TranslateLookup
  cases hc2 : (h.l2Cache.Lookup (paddr >>> h.l2Cache.offsetBits) false).1 with
  | some v =>
      simp [hc2]
  | none =>
      simp [hc2]
      cases hc3 : (h.l3Cache.Lookup (paddr >>> h.l3Cache.offsetBits) false).1 with
      | some v =>
          simp [hc3]
          have ewb := dc_lookup_wb h.l3Cache (paddr >>> h.l3Cache.offsetBits) false
          have e1 := wbmem_l2eq
            { l1Cache := h.l1Cache,
              l2Cache := (h.l2Cache.Lookup (paddr >>> h.l2Cache.offsetBits) false).2,
              l3Cache := (h.l3Cache.Lookup (paddr >>> h.l3Cache.offsetBits) false).2,
              memAccessCount := h.memAccessCount }
            (paddr >>> h.l2Cache.offsetBits) v false
          simp at e1
          omega
      | none =>
          simp [hc3]
          have ewb := dc_lookup_wb h.l3Cache (paddr >>> h.l3Cache.offsetBits) false
          have e1 := wbmem_l3eq
            { l1Cache := h.l1Cache,
              l2Cache := (h.l2Cache.Lookup (paddr >>> h.l2Cache.offsetBits) false).2,
              l3Cache := (h.l3Cache.Lookup (paddr >>> h.l3Cache.offsetBits) false).2,
              memAccessCount := h.memAccessCount + 1 }
            (paddr >>> h.l3Cache.offsetBits) value false
          have e2 := wbmem_l2eq
            (({ l1Cache := h.l1Cache,
                  l2Cache := (h.l2Cache.Lookup (paddr >>> h.l2Cache.offsetBits) false).2,
                  l3Cache := (h.l3Cache.Lookup (paddr >>> h.l3Cache.offsetBits) false).2,
                  memAccessCount := h.memAccessCount + 1
                } : CacheHierarchy).l3Insert (paddr >>> h.l3Cache.offsetBits) value false)
            (paddr >>> h.l2Cache.offsetBits) value false
          simp at e1 e2
          omega

/-- C7: a write-back increment never happens without its downstream effect:
`l3Insert` bumps L3's `writebacks_` exactly when it bumps the shared
main-memory access counter; `l1Insert` bumps L1's `writebacks_` exactly when
the evicted dirty line is written to L2 (it is then present and dirty there),
and otherwise leaves L2 untouched; `l2Insert` likewise pairs an L2 write-back
with a dirty write into L3; and across entire `Access` / `TranslateLookup`
steps the growth of L3's write-back counter never exceeds the growth of the
main-memory access counter. -/
theorem c7_writeback_pairing (h : CacheHierarchy) (t v : Nat) (w : Bool)
    (hwf2 : h.l2Cache.sac.wfb = true) (hns2 : 0 < h.l2Cache.sac.numSets)
    (hwf3 : h.l3Cache.sac.wfb = true) (hns3 : 0 < h.l3Cache.sac.numSets) :
    ((h.l3Insert t v w).l3Cache.writebacks + h.memAccessCount
       = h.l3Cache.writebacks + (h.l3Insert t v w).memAccessCount)
    ∧ (((h.l1Insert t v w).l1Cache.writebacks = h.l1Cache.writebacks
         ∧ (h.l1Insert t v w).l2Cache = h.l2Cache)
       ∨ ((h.l1Insert t v w).l1Cache.writebacks = h.l1Cache.writebacks + 1
         ∧ ∃ etag evalue, (h.l1Cache.Insert t v w).2 = some (etag, evalue)
           ∧ (h.l1Insert t v w).l2Cache.linePresent etag = true
           ∧ (h.l1Insert t v w).l2Cache.lineDirty etag = true))
    ∧ (((h.l2Insert t v w).l2Cache.writebacks = h.l2Cache.writebacks
         ∧ (h.l2Insert t v w).l3Cache = h.l3Cache
         ∧ (h.l2Insert t v w).memAccessCount = h.memAccessCount)
       ∨ ((h.l2Insert t v w).l2Cache.writebacks = h.l2Cache.writebacks + 1
         ∧ ∃ etag evalue, (h.l2Cache.Insert t v w).2 = some (etag, evalue)
           ∧ (h.l2Insert t v w).l3Cache.linePresent etag = true
           ∧ (h.l2Insert t v w).l3Cache.lineDirty etag = true))
    ∧ (∀ (paddr value : Nat) (iw : Bool),
        (h.Access paddr value iw).all (fun r =>
          decide (r.2.2.l3Cache.writebacks + h.memAccessCount
            ≤ h.l3Cache.writebacks + r.2.2.memAccessCount)) = true)
    ∧ (∀ (paddr value : Nat) (ts : TranslationStats),
        (h.TranslateLookup paddr value ts).2.2.1.l3Cache.writebacks
            + h.memAccessCount
          ≤ h.l3Cache.writebacks
            + (h.TranslateLookup paddr value ts).2.2.1.memAccessCount) :=
  ⟨wbmem_l3eq h t v w,
   l1Insert_wb_pairing h t v w hwf2 hns2,
   l2Insert_wb_pairing h t v w hwf3 hns3,
   fun paddr value iw => access_wbmem_le h paddr value iw,
   fun paddr value ts => translateLookup_wbmem_le h paddr value ts⟩

/-- Witness for `c7_writeback_pairing` on a small concrete hierarchy. -/
theorem c7_writeback_pairing_witness :
    (c4HierEq.l2Cache.sac.wfb = true ∧ 0 < c4HierEq.l2Cache.sac.numSets
     ∧ c4HierEq.l3Cache.sac.wfb = true ∧ 0 < c4HierEq.l3Cache.sac.numSets)
    ∧ ((c4HierEq.l3Insert 42 7 true).l3Cache.writebacks
          + c4HierEq.memAccessCount
        = c4HierEq.l3Cache.writebacks
          + (c4HierEq.l3Insert 42 7 true).memAccessCount) :=
  ⟨⟨by decide, by decide, by decide, by decide⟩,
   (c7_writeback_pairing c4HierEq 42 7 true (by decide) (by decide)
      (by decide) (by decide)).1⟩

theorem pow2_of_and_pred_zero : ∀ n, 0 < n → n &&& (n - 1) = 0 → ∃ k, n = 2 ^ k := by
  intro n
  induction n using Nat.strong_induction_on with
  | _ n ih =>
      intro hpos hand
      rcases Nat.lt_or_ge n 2 with h2 | h2
      · have h1 : n = 1 := by omega
        exact ⟨0, by omega⟩
      · have hm2 : 0 < n / 2 := Nat.div_pos h2 (by norm_num)
        by_cases hodd : n % 2 = 1
        · exfalso
          have hz : n / 2 = 0 := by
            apply Nat.eq_of_testBit_eq
            intro j
            have ht := congrArg (fun x => x.testBit (j + 1)) hand
            simp only [Nat.testBit_and] at ht
            simp only [Nat.testBit_add_one] at ht
            have he : (n - 1) / 2 = n / 2 := by omega
            rw [he] at ht
            simp at ht
            rw [Nat.zero_testBit]
            exact ht
          omega
        · have hev : n % 2 = 0 := by omega
          have hrec : (n / 2) &&& (n / 2 - 1) = 0 := by
            apply Nat.eq_of_testBit_eq
            intro j
            have ht := congrArg (fun x => x.testBit (j + 1)) hand
            simp only [Nat.testBit_and] at ht
            simp only [Nat.testBit_add_one] at ht
            have he : (n - 1) / 2 = n / 2 - 1 := by omega
            rw [he] at ht
            simp only [Nat.zero_div, Nat.zero_testBit] at ht
            rw [Nat.testBit_and, Nat.zero_testBit]
            exact ht
          obtain ⟨k, hk⟩ := ih (n / 2) (by omega) hm2 hrec
          refine ⟨k + 1, ?_⟩
          rw [pow_succ]
          omega

theorem and_pred_zero_iff (n : Nat) :
    n &&& (n - 1) = 0 ↔ (n = 0 ∨ ∃ k, n = 2 ^ k) := by
  constructor
  · intro h
    rcases Nat.eq_zero_or_pos n with h0 | hpos
    · exact Or.inl h0
    · exact Or.inr (pow2_of_and_pred_zero n hpos h)
  · intro h
    rcases h with h0 | ⟨k, hk⟩
    · simp [h0]
    · subst hk
      rw [Nat.and_pow_two_sub_one_eq_mod]
      exact Nat.mod_self _

/-- C9 (amended): when the root-frame allocation succeeds, construction
succeeds exactly when the constructor asserts pass, and the asserts pass
exactly when every per-level entry count is zero OR a power of two, the
shift invariant `pgdShift_ + StaticLog2(pgdEntryNum) == 48` holds, and the
TOC size is consistent with the TOC flag (positive power of two when
enabled, zero when disabled); `StaticLog2` is floor-log2 on powers of two
below `2^32`.  The claim's "not a power of two is rejected" fails at zero:
see `c9_zero_count_accepted`. -/
theorem c9_ctor_characterization (pm : PhysicalMemory) (dc : CacheHierarchy)
    (cfg : PageTableConfig) (halloc : (pm.AllocateFrame 0).isSome = true) :
    ((PageTable.mk0 pm dc cfg).isSome = true
       ↔ PageTable.ctorAsserts cfg = true)
    ∧ (PageTable.ctorAsserts cfg = true ↔
        ((cfg.pgdEntryNum = 0 ∨ ∃ k, cfg.pgdEntryNum = 2 ^ k)
         ∧ (cfg.pudEntryNum = 0 ∨ ∃ k, cfg.pudEntryNum = 2 ^ k)
         ∧ (cfg.pmdEntryNum = 0 ∨ ∃ k, cfg.pmdEntryNum = 2 ^ k)
         ∧ (cfg.pteEntryNum = 0 ∨ ∃ k, cfg.pteEntryNum = 2 ^ k)
         ∧ PageTable.pgdShiftOf cfg + StaticLog2 cfg.pgdEntryNum = 48
         ∧ (if cfg.tocEnabled = true
            then 0 < cfg.tocSize ∧ ∃ k, cfg.tocSize = 2 ^ k
            else cfg.tocSize = 0)))
    ∧ (∀ k, k < 32 → StaticLog2 (2 ^ k) = k) := by
  refine ⟨?_, ?_, ?_⟩
  · unfold PageTable.mk0
    cases hA : pm.AllocateFrame 0 with
    | none =>
        rw [hA] at halloc
        simp at halloc
    | some fr =>
        obtain ⟨frame, pm2⟩ := fr
        simp only []
        by_cases hc : PageTable.ctorAsserts cfg = true
        · simp [hc]
        · simp [hc]
  · unfold PageTable.ctorAsserts
    simp only [Bool.and_eq_true, beq_iff_eq]
    constructor
    · rintro ⟨⟨⟨⟨⟨h1, h2⟩, h3⟩, h4⟩, h5⟩, h6⟩
      refine ⟨(and_pred_zero_iff _).mp h1, (and_pred_zero_iff _).mp h2,
        (and_pred_zero_iff _).mp h3, (and_pred_zero_iff _).mp h4, h5, ?_⟩
      cases htoc : cfg.tocEnabled with
      | true =>
          rw [htoc] at h6
          simp at h6 ⊢
          obtain ⟨hpos, hp2⟩ := h6
          refine ⟨hpos, ?_⟩
          rcases (and_pred_zero_iff _).mp hp2 with h0 | hk
          · omega
          · exact hk
      | false =>
          rw [htoc] at h6
          simp at h6 ⊢
          exact h6
    · rintro ⟨h1, h2, h3, h4, h5, h6⟩
      refine ⟨⟨⟨⟨⟨(and_pred_zero_iff _).mpr h1, (and_pred_zero_iff _).mpr h2⟩,
        (and_pred_zero_iff _).mpr h3⟩, (and_pred_zero_iff _).mpr h4⟩, h5⟩, ?_⟩
      cases htoc : cfg.tocEnabled with
      | true =>
          rw [htoc] at h6
          simp at h6 ⊢
          obtain ⟨hpos, k, hk⟩ := h6
          exact ⟨hpos, (and_pred_zero_iff _).mpr (Or.inr ⟨k, hk⟩)⟩
      | false =>
          rw [htoc] at h6
          simp at h6 ⊢
          exact h6
  · decide

/-- C9 counterexample: `pteEntryNum = 0` is not a power of two, yet the
constructor accepts it, because `(n & (n-1)) == 0` also passes at zero. -/
theorem c9_zero_count_accepted :
    (PageTable.mk0 defaultPhysMem defaultHier c9Cfg).isSome = true
    ∧ c9Cfg.pteEntryNum = 0
    ∧ (∀ k, c9Cfg.pteEntryNum ≠ 2 ^ k) := by
  refine ⟨by decide, rfl, ?_⟩
  intro k
  show (0 : Nat) ≠ 2 ^ k
  exact (Nat.two_pow_pos k).ne

theorem c9_ctor_characterization_witness :
    (defaultPhysMem.AllocateFrame 0).isSome = true
    ∧ ((PageTable.mk0 defaultPhysMem defaultHier defaultPtConfig).isSome = true
        ↔ PageTable.ctorAsserts defaultPtConfig = true) :=
  ⟨by decide,
   (c9_ctor_characterization defaultPhysMem defaultHier defaultPtConfig
      (by decide)).1⟩

end MemSim
